import Mathlib

/-!
# moveit_ompl: `OMPLPlannerManager` (src/ompl_planner_manager.cpp)

A shallow embedding of the planner-manager adapter: the loading of the per-group planner
configurations from the parameter store (`loadPlannerConfigurations`), the completion of the
configuration map with one default record per joint group (`setPlannerConfigurations`), and the
three forwarding operations (`canServiceRequest`, `getPlanningAlgorithms`,
`getPlanningContext`).

Collaborators that the source only calls (the ROS node handle, the robot model, the planning
context manager, `boost::lexical_cast` on doubles) are parameters of the definitions.  Log
output (`ROS_ERROR`, `ROS_DEBUG_STREAM_NAMED`, `ROS_INFO`, `std::cout`) is not part of the
state and is only marked by comments at the places where the source logs.
-/

namespace moveit_ompl

/-! ## `std::map<std::string, V>` -/

/-- Lexicographic comparison of two character sequences. -/
def ltChars : List Char → List Char → Bool
  | [], [] => false
  | [], _ :: _ => true
  | _ :: _, [] => false
  | a :: as, b :: bs => if a < b then true else if b < a then false else ltChars as bs

/-- The ordering `std::less<std::string>` of the keys of a `std::map`: lexicographic on the
characters (for UTF-8 text the byte order of the source and the code-point order agree). -/
def string_less (a b : String) : Bool := ltChars a.data b.data

/-- A `std::map<std::string, V>`, as the list of its entries in iteration order. -/
abbrev StdMap (V : Type) := List (String × V)

namespace StdMap

variable {V : Type}

/-- The call `m.find(k)`: the value stored under `k`, or `none` for `m.end()`. -/
def find (k : String) : StdMap V → Option V
  | [] => none
  | (k', v) :: rest => if k' = k then some v else find k rest

/-- The assignment `m[k] = v`: overwrite the value of an existing key, or add the key at its
place in the key order. -/
def insert_or_assign (k : String) (v : V) : StdMap V → StdMap V
  | [] => [(k, v)]
  | (k', v') :: rest =>
    if string_less k k' then (k, v) :: (k', v') :: rest
    else if k = k' then (k, v) :: rest
    else (k', v') :: insert_or_assign k v rest

/-- The keys of the map in iteration order. -/
def keys (m : StdMap V) : List String := m.map Prod.fst

/-- The representation invariant of a `std::map`: keys strictly ascending (so pairwise
distinct). -/
def WF (m : StdMap V) : Prop := m.Pairwise (fun a b => a.1 < b.1)

end StdMap

/-! ## Collaborators -/

/-- The value type `XmlRpc::XmlRpcValue`, one constructor per `XmlRpcValue::Type`.  `F` is the
type of C++ `double`.  A struct is the list of its members in iteration order. -/
inductive XmlRpcValue (F : Type) where
  | invalid
  | boolean (b : Bool)
  | int (i : Int)
  | double (d : F)
  | string (s : String)
  | dateTime
  | base64
  | array (elems : List (XmlRpcValue F))
  | struct (members : List (String × XmlRpcValue F))

/-- The node handle `nh_` as far as the source uses it: `hasParam` and the overloads of
`getParam` for `std::string`, `double`, `int`, `bool` and `XmlRpc::XmlRpcValue`.  A read that
returns `false` is `none`. -/
structure NodeHandle (F : Type) where
  hasParam : String → Bool
  getParamString : String → Option String
  getParamDouble : String → Option F
  getParamInt : String → Option Int
  getParamBool : String → Option Bool
  getParamXml : String → Option (XmlRpcValue F)

/-- What the source takes from the C++ environment without defining it. -/
structure Env (F : Type) where
  /-- The text `boost::lexical_cast<std::string>` gives a `double`. -/
  lexical_cast_double : F → String
  /-- The indeterminate content of the local `int value_i`, which the source never
  assigns. -/
  value_i : Int

/-- The text `boost::lexical_cast<std::string>` gives an `int`: its decimal digits. -/
def lexical_cast_int (i : Int) : String := toString i

/-- The text `boost::lexical_cast<std::string>` gives a `bool`: `1` or `0`. -/
def lexical_cast_bool (b : Bool) : String := if b then "1" else "0"

/-- A `robot_model::JointModelGroup`, as far as the source uses it. -/
structure JointModelGroup where
  name : String
  deriving DecidableEq, Repr

/-- The accessor `JointModelGroup::getName`. -/
def JointModelGroup.getName (g : JointModelGroup) : String := g.name

/-- The robot model, as far as the source uses it: its joint groups. -/
structure RobotModel where
  joint_model_groups : List JointModelGroup
  deriving DecidableEq, Repr

/-- The accessor `RobotModel::getJointModelGroups`. -/
def RobotModel.getJointModelGroups (rm : RobotModel) : List JointModelGroup :=
  rm.joint_model_groups

/-- The accessor `RobotModel::getJointModelGroupNames`: the names of the joint groups, in the
order of `getJointModelGroups`. -/
def RobotModel.getJointModelGroupNames (rm : RobotModel) : List String :=
  rm.joint_model_groups.map JointModelGroup.getName

/-- The record `planning_interface::PlannerConfigurationSettings`. -/
structure PlannerConfigurationSettings where
  group : String
  name : String
  config : StdMap String
  deriving DecidableEq, Repr

/-- The map `planning_interface::PlannerConfigurationMap`. -/
abbrev PlannerConfigurationMap := StdMap PlannerConfigurationSettings

/-! ## `OMPLPlannerManager::loadPlannerConfigurations` -/

section load

variable {F : Type}

/-- The array `KNOWN_GROUP_PARAMS`. -/
def KNOWN_GROUP_PARAMS : List String :=
  ["projection_evaluator", "longest_valid_segment_fraction"]

/-- One pass of the loop over `KNOWN_GROUP_PARAMS` (lines 93-122), for the parameter `param`
of the group `group_name`.  The third read is, as in the source, a second read into the
`double`, and its branch stores the text of `value_i`. -/
def readKnownGroupParam (env : Env F) (nh : NodeHandle F) (group_name : String)
    (specific_group_params : StdMap String) (param : String) : StdMap String :=
  if nh.hasParam (group_name ++ "/" ++ param) then
    match nh.getParamString (group_name ++ "/" ++ param) with
    | some value =>
      if value ≠ "" then specific_group_params.insert_or_assign param value
      else specific_group_params
    | none =>
      match nh.getParamDouble (group_name ++ "/" ++ param) with
      | some value_d =>
        specific_group_params.insert_or_assign param (env.lexical_cast_double value_d)
      | none =>
        match nh.getParamDouble (group_name ++ "/" ++ param) with
        | some _ =>
          specific_group_params.insert_or_assign param (lexical_cast_int env.value_i)
        | none =>
          match nh.getParamBool (group_name ++ "/" ++ param) with
          | some value_b =>
            specific_group_params.insert_or_assign param (lexical_cast_bool value_b)
          | none => specific_group_params
  else specific_group_params

/-- The map `specific_group_params` of a group after the loop over `KNOWN_GROUP_PARAMS`. -/
def specificGroupParams (env : Env F) (nh : NodeHandle F) (group_name : String) :
    StdMap String :=
  KNOWN_GROUP_PARAMS.foldl (readKnownGroupParam env nh group_name) []

/-- One pass of the loop over the members of a configuration struct (lines 156-167). -/
def readConfigMember (env : Env F) (config : StdMap String) (it : String × XmlRpcValue F) :
    StdMap String :=
  match it.2 with
  | .string s => config.insert_or_assign it.1 s
  | .double d => config.insert_or_assign it.1 (env.lexical_cast_double d)
  | .int i => config.insert_or_assign it.1 (lexical_cast_int i)
  | .boolean b => config.insert_or_assign it.1 (lexical_cast_bool b)
  | _ => config

/-- The record `pc` built for the configuration `planner_config` of a group (lines
149-167): the group parameters, then the members of the configuration struct. -/
def plannerConfigSettings (env : Env F) (group_name : String)
    (specific_group_params : StdMap String) (planner_config : String)
    (members : List (String × XmlRpcValue F)) : PlannerConfigurationSettings :=
  { name := group_name ++ "[" ++ planner_config ++ "]"
    group := group_name
    config := members.foldl (readConfigMember env) specific_group_params }

/-- One pass of the loop over the elements of `planner_configs` (lines 141-177). -/
def loadConfigName (env : Env F) (nh : NodeHandle F) (group_name : String)
    (specific_group_params : StdMap String) (pconfig : PlannerConfigurationMap)
    (config_name : XmlRpcValue F) : PlannerConfigurationMap :=
  match config_name with
  | .string planner_config =>
    match nh.getParamXml ("planner_configs/" ++ planner_config) with
    | some (.struct members) =>
      pconfig.insert_or_assign (group_name ++ "[" ++ planner_config ++ "]")
        (plannerConfigSettings env group_name specific_group_params planner_config members)
    | some _ => pconfig   -- ROS_ERROR: not of struct type
    | none => pconfig     -- ROS_ERROR: not found on the param server
  | _ => pconfig          -- ROS_ERROR: names must be of type string

/-- The reading of the configurations of a group (lines 134-181), for the map `pconfig` as
it is after the default entry of the group. -/
def loadGroupConfigs (env : Env F) (nh : NodeHandle F) (group_name : String)
    (specific_group_params : StdMap String) (pconfig : PlannerConfigurationMap) :
    PlannerConfigurationMap :=
  match nh.getParamXml (group_name ++ "/planner_configs") with
  | some (.array elems) =>
    elems.foldl (loadConfigName env nh group_name specific_group_params) pconfig
  | some _ => pconfig    -- ROS_ERROR: should be an array of strings
  | none => pconfig

/-- One pass of the loop over the group names (lines 84-182). -/
def loadGroup (env : Env F) (nh : NodeHandle F) (pconfig : PlannerConfigurationMap)
    (group_name : String) : PlannerConfigurationMap :=
  loadGroupConfigs env nh group_name (specificGroupParams env nh group_name)
    (if specificGroupParams env nh group_name ≠ [] then
      pconfig.insert_or_assign group_name
        { name := group_name, group := group_name
          config := specificGroupParams env nh group_name }
    else pconfig)

/-- The map `pconfig` at line 192, before it is passed to `setPlannerConfigurations`. -/
def loadedConfigurations (env : Env F) (nh : NodeHandle F) (rm : RobotModel) :
    PlannerConfigurationMap :=
  rm.getJointModelGroupNames.foldl (loadGroup env nh) []

/-- The function `OMPLPlannerManager::setPlannerConfigurations`: the map `pconfig2` handed to
the context manager (lines 211-225). -/
def setPlannerConfigurations (rm : RobotModel) (pconfig : PlannerConfigurationMap) :
    PlannerConfigurationMap :=
  rm.getJointModelGroups.foldl
    (fun pconfig2 grp =>
      if pconfig.find grp.getName = none then
        pconfig2.insert_or_assign grp.getName
          { name := grp.getName, group := grp.getName, config := [] }
      else pconfig2)
    pconfig

/-- The function `OMPLPlannerManager::loadPlannerConfigurations`: the map the context manager
receives. -/
def loadPlannerConfigurations (env : Env F) (nh : NodeHandle F) (rm : RobotModel) :
    PlannerConfigurationMap :=
  setPlannerConfigurations rm (loadedConfigurations env nh rm)

end load

/-! ## Values of the parameter store -/

section store

variable {F : Type}

/-- The test `v.getType() == XmlRpcValue::TypeArray`. -/
def XmlRpcValue.isArray : XmlRpcValue F → Bool
  | .array _ => true
  | _ => false

/-- The test `v.getType() == XmlRpcValue::TypeStruct`. -/
def XmlRpcValue.isStruct : XmlRpcValue F → Bool
  | .struct _ => true
  | _ => false

/-- The test `v.getType() == XmlRpcValue::TypeString`. -/
def XmlRpcValue.isString : XmlRpcValue F → Bool
  | .string _ => true
  | _ => false

/-- The value has one of the four types that the member loop reads: string, double, int or
boolean. -/
def XmlRpcValue.isConfigScalar : XmlRpcValue F → Bool
  | .string _ => true
  | .double _ => true
  | .int _ => true
  | .boolean _ => true
  | _ => false

/-- The text the member loop stores for a value of type string, double, int or boolean; `none`
for every other type. -/
def XmlRpcValue.stringForm (env : Env F) : XmlRpcValue F → Option String
  | .string s => some s
  | .double d => some (env.lexical_cast_double d)
  | .int i => some (lexical_cast_int i)
  | .boolean b => some (lexical_cast_bool b)
  | _ => none

/-- The configuration named by an element of `planner_configs` resolves: the element is a
string and the value stored under `planner_configs/<name>` is a struct. -/
def configResolves (nh : NodeHandle F) : XmlRpcValue F → Bool
  | .string c =>
    match nh.getParamXml ("planner_configs/" ++ c) with
    | some (.struct _) => true
    | _ => false
  | _ => false

/-- The specification's reading of a group parameter (spec section 4): typed reads in the
order string, double, int, bool, and the text of the first one that succeeds. -/
def firstSuccessfulRead (env : Env F) (nh : NodeHandle F) (key : String) : Option String :=
  match nh.getParamString key with
  | some s => some s
  | none =>
    match nh.getParamDouble key with
    | some d => some (env.lexical_cast_double d)
    | none =>
      match nh.getParamInt key with
      | some i => some (lexical_cast_int i)
      | none =>
        match nh.getParamBool key with
        | some b => some (lexical_cast_bool b)
        | none => none

end store

/-! ## The forwarding operations -/

section forward

variable {F C O S E X : Type}

/-- The message `moveit_msgs::TrajectoryConstraints`; `C` is the type of one constraint
message. -/
structure TrajectoryConstraints (C : Type) where
  constraints : List C

/-- The message `moveit_msgs::MotionPlanRequest`: the field the source reads, and all its
other fields together. -/
structure MotionPlanRequest (C O : Type) where
  trajectory_constraints : TrajectoryConstraints C
  other_fields : O

/-- The function `OMPLPlannerManager::canServiceRequest`. -/
def canServiceRequest (req : MotionPlanRequest C O) : Bool :=
  req.trajectory_constraints.constraints.isEmpty

/-- The call `std::vector::clear`. -/
def clear (_v : List String) : List String := []

/-- The call `std::vector::push_back`. -/
def push_back (v : List String) (x : String) : List String := v ++ [x]

/-- The function `OMPLPlannerManager::getPlanningAlgorithms`: the content of `algs` on return,
for the map `pconfig` that `getPlannerConfigurations()` returns. -/
def getPlanningAlgorithms (pconfig : PlannerConfigurationMap) (algs : List String) :
    List String :=
  pconfig.foldl (fun a it => push_back a it.1) (clear algs)

/-- Modelled from the spec: the planning context class is declared outside src/.  A planning
context object "accepts a boolean simplify solutions policy flag"; `other_state` is
everything else it holds. -/
structure ModelBasedPlanningContext (X : Type) where
  simplify_solutions_ : Bool
  other_state : X

/-- Modelled from the spec: `ModelBasedPlanningContext::simplifySolutions(flag)` stores the
flag in the context. -/
def ModelBasedPlanningContext.simplifySolutions (ctx : ModelBasedPlanningContext X)
    (flag : Bool) : ModelBasedPlanningContext X :=
  { ctx with simplify_solutions_ := flag }

/-- The planning context manager, as far as the source uses it: the configuration map it
was last given, and its answer to a planning request (a context pointer, `none` for null, and
the error code it leaves), which may depend on that map. -/
structure PlanningContextManager (C O S E X : Type) where
  planner_configs : PlannerConfigurationMap
  answer : PlannerConfigurationMap → S → MotionPlanRequest C O → E →
    Option (ModelBasedPlanningContext X) × E

/-- The call `PlanningContextManager::setPlannerConfigurations`. -/
def PlanningContextManager.setPlannerConfigurations (cm : PlanningContextManager C O S E X)
    (pconfig : PlannerConfigurationMap) : PlanningContextManager C O S E X :=
  { cm with planner_configs := pconfig }

/-- The call `PlanningContextManager::getPlanningContext(planning_scene, req, error_code)`. -/
def PlanningContextManager.getPlanningContext (cm : PlanningContextManager C O S E X)
    (planning_scene : S) (req : MotionPlanRequest C O) (error_code : E) :
    Option (ModelBasedPlanningContext X) × E :=
  cm.answer cm.planner_configs planning_scene req error_code

/-- The members of `OMPLPlannerManager` that the source file reads or writes.  A null
`shared_ptr` is `none`.  `config_settings_` is the map of the base class
`planning_interface::PlannerManager`. -/
structure OMPLPlannerManager (F C O S E X : Type) where
  nh_ : NodeHandle F
  simplify_solutions_ : Bool
  robot_model_ : Option RobotModel
  context_manager_ : Option (PlanningContextManager C O S E X)
  config_settings_ : PlannerConfigurationMap

/-- What the operations of `OMPLPlannerManager` take from outside the source file. -/
structure Collaborators (F C O S E X : Type) where
  env : Env F
  /-- The constructor `ros::NodeHandle(ns)`. -/
  ros_NodeHandle : String → NodeHandle F
  /-- The constructor `PlanningContextManager(robot_model, constraint_sampler_manager)`. -/
  new_PlanningContextManager : RobotModel → PlanningContextManager C O S E X
  /-- The call `getPlannerConfigurations()` of line 227, declared outside src/: a function of
  the map of the context manager and of the map of the base class. -/
  getPlannerConfigurations : PlannerConfigurationMap → PlannerConfigurationMap →
    PlannerConfigurationMap

namespace OMPLPlannerManager

/-- The constructor (lines 47-53). -/
def new (w : Collaborators F C O S E X) : OMPLPlannerManager F C O S E X :=
  { nh_ := w.ros_NodeHandle "~"
    simplify_solutions_ := true
    robot_model_ := none
    context_manager_ := none
    config_settings_ := [] }

/-- The member function `setPlannerConfigurations` (lines 209-228); `none` when the source
dereferences a null pointer. -/
def setPlannerConfigurations (w : Collaborators F C O S E X)
    (self : OMPLPlannerManager F C O S E X) (pconfig : PlannerConfigurationMap) :
    Option (OMPLPlannerManager F C O S E X) :=
  match self.robot_model_, self.context_manager_ with
  | some rm, some cm =>
    let cm2 := cm.setPlannerConfigurations (moveit_ompl.setPlannerConfigurations rm pconfig)
    some { self with
      context_manager_ := some cm2
      config_settings_ := w.getPlannerConfigurations cm2.planner_configs self.config_settings_ }
  | _, _ => none

/-- The member function `loadPlannerConfigurations` (lines 77-193). -/
def loadPlannerConfigurations (w : Collaborators F C O S E X)
    (self : OMPLPlannerManager F C O S E X) : Option (OMPLPlannerManager F C O S E X) :=
  match self.robot_model_ with
  | some rm => setPlannerConfigurations w self (loadedConfigurations w.env self.nh_ rm)
  | none => none

/-- The member function `initialize` (lines 55-75; the name is a reserved word here), for a
non-null robot model.  The constraint sampler managers it creates are not read by any other
function of the source file. -/
def initialise (w : Collaborators F C O S E X) (self : OMPLPlannerManager F C O S E X)
    (robot_model : RobotModel) (ns : String) : Option (OMPLPlannerManager F C O S E X) :=
  loadPlannerConfigurations w
    { self with
      robot_model_ := some robot_model
      nh_ := if ns ≠ "" then w.ros_NodeHandle ns else self.nh_
      context_manager_ := some (w.new_PlanningContextManager robot_model) }

/-- The member function `configureContext` (lines 248-251). -/
def configureContext (self : OMPLPlannerManager F C O S E X)
    (context : ModelBasedPlanningContext X) : ModelBasedPlanningContext X :=
  context.simplifySolutions self.simplify_solutions_

/-- The member function `getPlanningContext` (lines 230-238): the returned pointer and the
error code left in `error_code`; `none` when `context_manager_` is null. -/
def getPlanningContext (self : OMPLPlannerManager F C O S E X) (planning_scene : S)
    (req : MotionPlanRequest C O) (error_code : E) :
    Option (Option (ModelBasedPlanningContext X) × E) :=
  match self.context_manager_ with
  | some cm =>
    match cm.getPlanningContext planning_scene req error_code with
    | (some ctx, ec) => some (some (self.configureContext ctx), ec)
    | (none, ec) => some (none, ec)
  | none => none

/-- The member function `printStatus` (lines 253-256): it only logs. -/
def printStatus (self : OMPLPlannerManager F C O S E X) : OMPLPlannerManager F C O S E X :=
  self

end OMPLPlannerManager

/-- A call of one of the member functions defined in the source file. -/
inductive Call (C O S E X : Type) where
  | initialise (robot_model : RobotModel) (ns : String)
  | loadPlannerConfigurations
  | setPlannerConfigurations (pconfig : PlannerConfigurationMap)
  | canServiceRequest (req : MotionPlanRequest C O)
  | getPlanningAlgorithms (algs : List String)
  | getPlanningContext (planning_scene : S) (req : MotionPlanRequest C O) (error_code : E)
  | configureContext (context : ModelBasedPlanningContext X)
  | printStatus

/-- The adapter after a call; the `const` member functions leave it as it is. -/
def OMPLPlannerManager.after (w : Collaborators F C O S E X)
    (self : OMPLPlannerManager F C O S E X) :
    Call C O S E X → Option (OMPLPlannerManager F C O S E X)
  | .initialise robot_model ns => self.initialise w robot_model ns
  | .loadPlannerConfigurations => self.loadPlannerConfigurations w
  | .setPlannerConfigurations pconfig => self.setPlannerConfigurations w pconfig
  | .canServiceRequest _ => some self
  | .getPlanningAlgorithms _ => some self
  | .getPlanningContext _ _ _ => some self
  | .configureContext _ => some self
  | .printStatus => some self.printStatus

/-- The adapter after a sequence of calls, starting from the constructor. -/
def OMPLPlannerManager.afterCalls (w : Collaborators F C O S E X) :
    List (Call C O S E X) → Option (OMPLPlannerManager F C O S E X)
  | [] => some (OMPLPlannerManager.new w)
  | c :: cs =>
    match OMPLPlannerManager.afterCalls w cs with
    | some self => self.after w c
    | none => none

end forward

/-! ## Notions used to state the properties -/

section notions

variable {F : Type}

/-- The default record of a group that `setPlannerConfigurations` adds (lines 219-221). -/
def emptySettings (g : String) : PlannerConfigurationSettings :=
  { name := g, group := g, config := [] }

/-- An entry as the loading loop writes it: either the default entry of a group with at least
one group parameter, or the entry of a configuration that an element of the group's
`planner_configs` array names and that is stored as a struct. -/
def LoadedEntry (env : Env F) (nh : NodeHandle F) (names : List String)
    (e : String × PlannerConfigurationSettings) : Prop :=
  e.2.group ∈ names ∧
  ((e.1 = e.2.group ∧ specificGroupParams env nh e.2.group ≠ [] ∧
      e.2 = { name := e.2.group, group := e.2.group
              config := specificGroupParams env nh e.2.group }) ∨
   (∃ c elems members,
      nh.getParamXml (e.2.group ++ "/planner_configs") = some (.array elems) ∧
      XmlRpcValue.string c ∈ elems ∧
      nh.getParamXml ("planner_configs/" ++ c) = some (.struct members) ∧
      e.1 = e.2.group ++ "[" ++ c ++ "]" ∧
      e.2 = plannerConfigSettings env e.2.group (specificGroupParams env nh e.2.group) c
              members))

/-- The text that one pass of the loop over `KNOWN_GROUP_PARAMS` stores for the key `key`,
if it stores one. -/
def groupParamValue (env : Env F) (nh : NodeHandle F) (key : String) : Option String :=
  if nh.hasParam key then
    match nh.getParamString key with
    | some value => if value ≠ "" then some value else none
    | none =>
      match nh.getParamDouble key with
      | some value_d => some (env.lexical_cast_double value_d)
      | none =>
        match nh.getParamDouble key with
        | some _ => some (lexical_cast_int env.value_i)
        | none =>
          match nh.getParamBool key with
          | some value_b => some (lexical_cast_bool value_b)
          | none => none
  else none

/-- Two stores give the same answer to every read that the loading loop performs at a key other
than `K`: the known group parameters and the `planner_configs` value of every group of the
robot model, and the stored value of every configuration name that a `planner_configs` array
of the first store lists.  (The loop never calls the `int` overload.) -/
def SameOtherReads (rm : RobotModel) (nh nh2 : NodeHandle F) (K : String) : Prop :=
  (∀ g ∈ rm.getJointModelGroupNames, ∀ p ∈ KNOWN_GROUP_PARAMS, g ++ "/" ++ p ≠ K →
    nh2.hasParam (g ++ "/" ++ p) = nh.hasParam (g ++ "/" ++ p) ∧
    nh2.getParamString (g ++ "/" ++ p) = nh.getParamString (g ++ "/" ++ p) ∧
    nh2.getParamDouble (g ++ "/" ++ p) = nh.getParamDouble (g ++ "/" ++ p) ∧
    nh2.getParamBool (g ++ "/" ++ p) = nh.getParamBool (g ++ "/" ++ p)) ∧
  (∀ g ∈ rm.getJointModelGroupNames, g ++ "/planner_configs" ≠ K →
    nh2.getParamXml (g ++ "/planner_configs") = nh.getParamXml (g ++ "/planner_configs")) ∧
  (∀ g ∈ rm.getJointModelGroupNames, ∀ elems c,
    nh.getParamXml (g ++ "/planner_configs") = some (.array elems) →
    XmlRpcValue.string c ∈ elems → "planner_configs/" ++ c ≠ K →
    nh2.getParamXml ("planner_configs/" ++ c) = nh.getParamXml ("planner_configs/" ++ c))

end notions

/-! ## Inputs to evaluate the definitions on -/

/-- A request with one trajectory constraint and a request without any. -/
def requestWith : MotionPlanRequest Nat String := ⟨⟨[7]⟩, "arm"⟩

/-- A request without trajectory constraints, the other fields being different. -/
def requestWithout : MotionPlanRequest Nat String := ⟨⟨[]⟩, "base"⟩

/-- A configuration map with two entries. -/
def exampleMap : PlannerConfigurationMap :=
  [("arm", ⟨"arm", "arm", []⟩), ("arm[RRT]", ⟨"arm", "arm[RRT]", [("range", "1")]⟩)]

/-- An environment in which `double` values are integers printed in decimal. -/
def exampleEnv : Env Int := { lexical_cast_double := fun d => toString d, value_i := 0 }

/-- A store: group `arm` has a projection evaluator and lists the configurations `RRT` (a
struct), `3` (not a string) and `PRM` (not stored); group `base` has nothing; group `gripper`
has a `longest_valid_segment_fraction` that no typed read can read (an array) and a string
where its list of configuration names should be. -/
def exampleStore : NodeHandle Int where
  hasParam k := k = "arm/projection_evaluator" || k = "gripper/longest_valid_segment_fraction"
  getParamString k := if k = "arm/projection_evaluator" then some "joints(a,b)" else none
  getParamDouble _ := none
  getParamInt _ := none
  getParamBool _ := none
  getParamXml k :=
    if k = "arm/planner_configs" then
      some (.array [.string "RRT", .int 3, .string "PRM"])
    else if k = "planner_configs/RRT" then
      some (.struct [("projection_evaluator", .string "link(tip)"), ("range", .int 7),
        ("shape", .array []), ("verbose", .boolean true)])
    else if k = "gripper/planner_configs" then some (.string "RRT")
    else if k = "gripper/longest_valid_segment_fraction" then some (.array [])
    else none

/-- A robot model with the groups `arm`, `base` and `gripper`. -/
def exampleModel : RobotModel := ⟨[⟨"arm"⟩, ⟨"base"⟩, ⟨"gripper"⟩]⟩

/-- A store in which the projection evaluator of group `arm` is the empty string. -/
def emptyStringStore : NodeHandle Int where
  hasParam k := k = "arm/projection_evaluator"
  getParamString k := if k = "arm/projection_evaluator" then some "" else none
  getParamDouble _ := none
  getParamInt _ := none
  getParamBool _ := none
  getParamXml k := if k = "arm/projection_evaluator" then some (.string "") else none

/-- A store in which `arm/longest_valid_segment_fraction` can be read as an `int` only. -/
def intOnlyStore : NodeHandle Int where
  hasParam k := k = "arm/longest_valid_segment_fraction"
  getParamString _ := none
  getParamDouble _ := none
  getParamInt k := if k = "arm/longest_valid_segment_fraction" then some 5 else none
  getParamBool _ := none
  getParamXml k := if k = "arm/longest_valid_segment_fraction" then some (.int 5) else none

/-- A store in which the group named `planner_configs` has a struct where its list of
configuration names should be, and the same key is the configuration that group `arm`
lists. -/
def sharedKeyStore : NodeHandle Int where
  hasParam _ := false
  getParamString _ := none
  getParamDouble _ := none
  getParamInt _ := none
  getParamBool _ := none
  getParamXml k :=
    if k = "arm/planner_configs" then some (.array [.string "planner_configs"])
    else if k = "planner_configs/planner_configs" then
      some (.struct [("range", .string "1")])
    else none

/-- The store `sharedKeyStore` without the parameter `planner_configs/planner_configs`. -/
def sharedKeyStoreWithout : NodeHandle Int where
  hasParam _ := false
  getParamString _ := none
  getParamDouble _ := none
  getParamInt _ := none
  getParamBool _ := none
  getParamXml k :=
    if k = "arm/planner_configs" then some (.array [.string "planner_configs"])
    else none

/-- A robot model with a group `arm` and a group named `planner_configs`. -/
def sharedKeyModel : RobotModel := ⟨[⟨"arm"⟩, ⟨"planner_configs"⟩]⟩

/-- A store in which the parameter `planner_configs/projection_evaluator` exists, can be
read neither as string, double, int nor bool (it is a struct), and is the configuration that
group `arm` lists. -/
def unreadableStore : NodeHandle Int where
  hasParam k := k = "planner_configs/projection_evaluator"
  getParamString _ := none
  getParamDouble _ := none
  getParamInt _ := none
  getParamBool _ := none
  getParamXml k :=
    if k = "arm/planner_configs" then some (.array [.string "projection_evaluator"])
    else if k = "planner_configs/projection_evaluator" then
      some (.struct [("range", .string "1")])
    else none

/-- The store `unreadableStore` without the parameter
`planner_configs/projection_evaluator`. -/
def unreadableStoreWithout : NodeHandle Int where
  hasParam _ := false
  getParamString _ := none
  getParamDouble _ := none
  getParamInt _ := none
  getParamBool _ := none
  getParamXml k :=
    if k = "arm/planner_configs" then some (.array [.string "projection_evaluator"])
    else none

/-- The store `exampleStore` without the parameter `gripper/planner_configs`. -/
def exampleStoreWithoutGripperList : NodeHandle Int :=
  { exampleStore with
    getParamXml := fun k =>
      if k = "gripper/planner_configs" then none else exampleStore.getParamXml k }

/-- The store `exampleStore` with the element `3` removed from `arm/planner_configs`. -/
def exampleStoreWithoutThree : NodeHandle Int :=
  { exampleStore with
    getParamXml := fun k =>
      if k = "arm/planner_configs" then some (.array [.string "RRT", .string "PRM"])
      else exampleStore.getParamXml k }

/-- The store `exampleStore` with the element `PRM` removed from `arm/planner_configs`. -/
def exampleStoreWithoutPRM : NodeHandle Int :=
  { exampleStore with
    getParamXml := fun k =>
      if k = "arm/planner_configs" then some (.array [.string "RRT", .int 3])
      else exampleStore.getParamXml k }

/-- The store `exampleStore` without the parameter
`gripper/longest_valid_segment_fraction`. -/
def exampleStoreWithoutFraction : NodeHandle Int :=
  { exampleStore with
    hasParam := fun k => k = "arm/projection_evaluator"
    getParamXml := fun k =>
      if k = "gripper/longest_valid_segment_fraction" then none
      else exampleStore.getParamXml k }

/-- The store `exampleStore` with the member `shape` removed from the struct
`planner_configs/RRT`. -/
def exampleStoreWithoutShape : NodeHandle Int :=
  { exampleStore with
    getParamXml := fun k =>
      if k = "planner_configs/RRT" then
        some (.struct [("projection_evaluator", .string "link(tip)"), ("range", .int 7),
          ("verbose", .boolean true)])
      else exampleStore.getParamXml k }

/-- Collaborators to evaluate the adapter on: a context manager that answers a request with
a context (flag off) and code `1` when the group named in the request has an entry in its
configuration map, and with null and code `99` otherwise. -/
def exampleWorld : Collaborators Int Nat String Unit Nat String where
  env := exampleEnv
  ros_NodeHandle := fun _ => exampleStore
  new_PlanningContextManager := fun _ =>
    { planner_configs := []
      answer := fun configs _ req _ =>
        if (configs.find req.other_fields).isSome then
          (some { simplify_solutions_ := false, other_state := req.other_fields }, 1)
        else (none, 99) }
  getPlannerConfigurations := fun fromManager _ => fromManager

/-- The adapter after construction and one call of `initialize`. -/
def exampleManager : OMPLPlannerManager Int Nat String Unit Nat String :=
  (OMPLPlannerManager.afterCalls exampleWorld [.initialise exampleModel ""]).getD
    (OMPLPlannerManager.new exampleWorld)

/-- The context manager of `exampleManager`. -/
def exampleContextManager : PlanningContextManager Nat String Unit Nat String :=
  exampleManager.context_manager_.getD (exampleWorld.new_PlanningContextManager exampleModel)

/-! ## Facts about `std::map` -/

namespace StdMap

variable {V : Type}

theorem ltChars_iff (a b : List Char) : ltChars a b = true ↔ List.Lex (· < ·) a b := by
  induction a generalizing b with
  | nil =>
    cases b with
    | nil =>
      simp only [ltChars]
      constructor
      · intro h; cases h
      · intro h; cases h
    | cons y ys =>
      simp only [ltChars, true_iff]
      exact List.Lex.nil
  | cons x xs ih =>
    cases b with
    | nil =>
      simp only [ltChars]
      constructor
      · intro h; cases h
      · intro h; cases h
    | cons y ys =>
      simp only [ltChars]
      by_cases hxy : x < y
      · simp only [hxy, if_true, true_iff]
        exact List.Lex.rel hxy
      · by_cases hyx : y < x
        · simp only [hxy, hyx, if_false, if_true]
          constructor
          · intro h; cases h
          · intro h
            cases h with
            | cons _ => exact absurd hyx (lt_irrefl _)
            | rel h1 => exact absurd h1 hxy
        · simp only [hxy, hyx, if_false]
          have heq : x = y := le_antisymm (not_lt.1 hyx) (not_lt.1 hxy)
          subst heq
          rw [ih ys]
          constructor
          · intro h; exact List.Lex.cons h
          · intro h
            cases h with
            | cons h3 => exact h3
            | rel h1 => exact absurd h1 hxy

theorem string_less_iff (a b : String) : string_less a b = true ↔ a < b := by
  rw [String.lt_iff_toList_lt]
  exact ltChars_iff a.data b.data

theorem find_insert_self (k : String) (v : V) (m : StdMap V) :
    find k (insert_or_assign k v m) = some v := by
  induction m with
  | nil => simp [insert_or_assign, find]
  | cons e rest ih =>
    obtain ⟨k1, v1⟩ := e
    simp only [insert_or_assign]
    split
    · simp [find]
    · split
      · simp [find]
      · rename_i h1 h2
        simp only [find]
        rw [if_neg (fun h => h2 h.symm)]
        exact ih

theorem find_insert_ne (k k2 : String) (v : V) (m : StdMap V) (h : k2 ≠ k) :
    find k2 (insert_or_assign k v m) = find k2 m := by
  induction m with
  | nil => simp [insert_or_assign, find, Ne.symm h]
  | cons e rest ih =>
    obtain ⟨k1, v1⟩ := e
    simp only [insert_or_assign]
    split
    · simp [find, Ne.symm h]
    · split
      · rename_i h1 h2
        subst h2
        simp [find, Ne.symm h]
      · simp only [find]
        rw [ih]

theorem mem_insert (k : String) (v : V) (m : StdMap V) (e : String × V)
    (h : e ∈ insert_or_assign k v m) : e = (k, v) ∨ e ∈ m := by
  induction m with
  | nil => simpa [insert_or_assign] using h
  | cons e1 rest ih =>
    obtain ⟨k1, v1⟩ := e1
    simp only [insert_or_assign] at h
    split at h
    · simpa using h
    · split at h
      · rcases List.mem_cons.1 h with h | h
        · exact Or.inl h
        · exact Or.inr (List.mem_cons_of_mem _ h)
      · rcases List.mem_cons.1 h with h | h
        · exact Or.inr (h ▸ List.mem_cons_self _ _)
        · rcases ih h with h | h
          · exact Or.inl h
          · exact Or.inr (List.mem_cons_of_mem _ h)

theorem mem_of_find (k : String) (v : V) (m : StdMap V) (h : find k m = some v) :
    (k, v) ∈ m := by
  induction m with
  | nil => simp [find] at h
  | cons e rest ih =>
    obtain ⟨k1, v1⟩ := e
    simp only [find] at h
    split at h
    · rename_i hk
      simp only [Option.some.injEq] at h
      subst hk; subst h
      exact List.mem_cons_self _ _
    · exact List.mem_cons_of_mem _ (ih h)

theorem find_isSome_of_mem (k : String) (v : V) (m : StdMap V) (h : (k, v) ∈ m) :
    (find k m).isSome = true := by
  induction m with
  | nil => simp at h
  | cons e rest ih =>
    obtain ⟨k1, v1⟩ := e
    simp only [find]
    split
    · rfl
    · rename_i hk
      rcases List.mem_cons.1 h with h | h
      · exact absurd (congrArg Prod.fst h).symm hk
      · exact ih h

theorem find_of_mem_WF (k : String) (v : V) (m : StdMap V) (hwf : WF m) (h : (k, v) ∈ m) :
    find k m = some v := by
  induction m with
  | nil => simp at h
  | cons e rest ih =>
    obtain ⟨k1, v1⟩ := e
    have hwf2 := List.pairwise_cons.1 hwf
    simp only [find]
    rcases List.mem_cons.1 h with h | h
    · simp only [Prod.mk.injEq] at h
      simp [h.1, h.2]
    · have hlt : k1 < k := hwf2.1 (k, v) h
      rw [if_neg (ne_of_lt hlt)]
      exact ih hwf2.2 h

theorem WF_insert (k : String) (v : V) (m : StdMap V) (hwf : WF m) :
    WF (insert_or_assign k v m) := by
  induction m with
  | nil => simp [insert_or_assign, WF]
  | cons e rest ih =>
    obtain ⟨k1, v1⟩ := e
    have hwf2 := List.pairwise_cons.1 hwf
    simp only [insert_or_assign]
    split
    · rename_i hlt
      have hlt2 : k < k1 := (string_less_iff k k1).1 hlt
      refine List.pairwise_cons.2 ⟨?_, hwf⟩
      intro e he
      rcases List.mem_cons.1 he with he | he
      · rw [he]; exact hlt2
      · exact lt_trans hlt2 (hwf2.1 e he)
    · split
      · rename_i h1 h2
        subst h2
        exact List.pairwise_cons.2 ⟨hwf2.1, hwf2.2⟩
      · rename_i h1 h2
        have hnlt : ¬ k < k1 := fun h => h1 ((string_less_iff k k1).2 h)
        have hgt : k1 < k := lt_of_le_of_ne (not_lt.1 hnlt) (fun h => h2 h.symm)
        refine List.pairwise_cons.2 ⟨?_, ih hwf2.2⟩
        intro e he
        rcases mem_insert k v rest e he with he | he
        · rw [he]; exact hgt
        · exact hwf2.1 e he

theorem find_isSome_insert (k k2 : String) (v : V) (m : StdMap V)
    (h : (find k2 m).isSome = true) : (find k2 (insert_or_assign k v m)).isSome = true := by
  by_cases hk : k2 = k
  · subst hk; rw [find_insert_self]; rfl
  · rw [find_insert_ne k k2 v m hk]; exact h

end StdMap

/-! ## Loops -/

section loops

variable {A B : Type}

/-- A property that holds before a loop and is kept by every pass holds after the loop. -/
theorem foldl_invariant (Inv : B → Prop) (f : B → A → B) (l : List A) (init : B)
    (h0 : Inv init) (hstep : ∀ acc x, x ∈ l → Inv acc → Inv (f acc x)) :
    Inv (l.foldl f init) := by
  induction l generalizing init with
  | nil => exact h0
  | cons x xs ih =>
    simp only [List.foldl_cons]
    apply ih
    · exact hstep init x (List.mem_cons_self _ _) h0
    · intro acc y hy hacc
      exact hstep acc y (List.mem_cons_of_mem _ hy) hacc

/-- Two loops over the same list whose passes agree on the elements of the list end in the
same state. -/
theorem foldl_agree (f g : B → A → B) (l : List A) (init : B)
    (h : ∀ acc x, x ∈ l → f acc x = g acc x) : l.foldl f init = l.foldl g init := by
  induction l generalizing init with
  | nil => rfl
  | cons x xs ih =>
    simp only [List.foldl_cons]
    rw [h init x (List.mem_cons_self _ _)]
    exact ih _ (fun acc y hy => h acc y (List.mem_cons_of_mem _ hy))

/-- Removing from the list an element whose pass changes nothing does not change the result
of the loop. -/
theorem foldl_eraseIdx (f : B → A → B) (l : List A) (init : B) (j : Nat) (hj : j < l.length)
    (h : ∀ acc, f acc (l.get ⟨j, hj⟩) = acc) :
    (l.eraseIdx j).foldl f init = l.foldl f init := by
  induction l generalizing init j with
  | nil => rfl
  | cons x xs ih =>
    cases j with
    | zero =>
      simp only [List.eraseIdx_cons_zero, List.foldl_cons]
      have h0 := h init
      simp only [List.get_eq_getElem, List.getElem_cons_zero] at h0
      rw [h0]
    | succ n =>
      simp only [List.eraseIdx_cons_succ, List.foldl_cons]
      have hn : n < xs.length := by simpa using hj
      apply ih _ n hn
      intro acc
      have h1 := h acc
      simpa using h1

end loops

/-! ## `getPlanningAlgorithms` and `canServiceRequest` -/

theorem foldl_push_back (m : PlannerConfigurationMap) (acc : List String) :
    m.foldl (fun a it => push_back a it.1) acc = acc ++ m.keys := by
  induction m generalizing acc with
  | nil => simp [StdMap.keys]
  | cons e rest ih =>
    simp only [List.foldl_cons]
    rw [ih]
    simp [push_back, StdMap.keys]

theorem keys_pairwise_of_WF {V : Type} (m : StdMap V) (h : m.WF) :
    m.keys.Pairwise (fun a b => a < b) := by
  simpa [StdMap.keys, StdMap.WF, List.pairwise_map] using h

theorem mem_keys_iff_find {V : Type} (m : StdMap V) (k : String) :
    k ∈ m.keys ↔ (StdMap.find k m).isSome = true := by
  constructor
  · intro h
    obtain ⟨e, he, hk⟩ := List.mem_map.1 h
    obtain ⟨k1, v1⟩ := e
    simp only at hk
    subst hk
    exact StdMap.find_isSome_of_mem _ v1 m he
  · intro h
    obtain ⟨v, hv⟩ := Option.isSome_iff_exists.1 h
    exact List.mem_map.2 ⟨(k, v), StdMap.mem_of_find k v m hv, rfl⟩

/-! ## Where the entries of the configuration map come from -/

section origin

variable {F : Type}

theorem loadConfigName_entries (env : Env F) (nh : NodeHandle F) (names : List String)
    (g : String) (hg : g ∈ names) (elems : List (XmlRpcValue F))
    (helems : nh.getParamXml (g ++ "/planner_configs") = some (.array elems))
    (x : XmlRpcValue F) (hx : x ∈ elems) (acc : PlannerConfigurationMap)
    (hacc : ∀ e ∈ acc, LoadedEntry env nh names e) :
    ∀ e ∈ loadConfigName env nh g (specificGroupParams env nh g) acc x,
      LoadedEntry env nh names e := by
  intro e he
  unfold loadConfigName at he
  split at he
  · rename_i c
    split at he
    · rename_i members hm
      rcases StdMap.mem_insert _ _ _ _ he with h | h
      · subst h
        refine ⟨hg, Or.inr ⟨c, elems, members, helems, hx, hm, rfl, rfl⟩⟩
      · exact hacc e h
    · exact hacc e he
    · exact hacc e he
  · exact hacc e he

theorem loadGroup_entries (env : Env F) (nh : NodeHandle F) (names : List String)
    (g : String) (hg : g ∈ names) (acc : PlannerConfigurationMap)
    (hacc : ∀ e ∈ acc, LoadedEntry env nh names e) :
    ∀ e ∈ loadGroup env nh acc g, LoadedEntry env nh names e := by
  have h1 : ∀ e ∈ (if specificGroupParams env nh g ≠ [] then
      acc.insert_or_assign g
        { name := g, group := g, config := specificGroupParams env nh g }
      else acc), LoadedEntry env nh names e := by
    intro e he
    split at he
    · rename_i hne
      rcases StdMap.mem_insert _ _ _ _ he with h | h
      · subst h
        exact ⟨hg, Or.inl ⟨rfl, hne, rfl⟩⟩
      · exact hacc e h
    · exact hacc e he
  unfold loadGroup loadGroupConfigs
  split
  · rename_i elems helems
    exact foldl_invariant (fun m => ∀ e ∈ m, LoadedEntry env nh names e) _ elems _ h1
      (fun m x hx hm => loadConfigName_entries env nh names g hg elems helems x hx m hm)
  · exact h1
  · exact h1

theorem loadedConfigurations_entries (env : Env F) (nh : NodeHandle F) (rm : RobotModel) :
    ∀ e ∈ loadedConfigurations env nh rm,
      LoadedEntry env nh rm.getJointModelGroupNames e := by
  unfold loadedConfigurations
  exact foldl_invariant (fun m => ∀ e ∈ m, LoadedEntry env nh rm.getJointModelGroupNames e)
    _ _ _ (fun e he => absurd he (List.not_mem_nil e))
    (fun m g hg hm => loadGroup_entries env nh _ g hg m hm)

theorem LoadedEntry.name_eq (env : Env F) (nh : NodeHandle F) (names : List String)
    (e : String × PlannerConfigurationSettings) (h : LoadedEntry env nh names e) :
    e.2.name = e.1 := by
  rcases h.2 with ⟨h1, _, h3⟩ | ⟨c, elems, members, _, _, _, h4, h5⟩
  · rw [h3, h1]
  · rw [h5, h4]; rfl

/-! ### `setPlannerConfigurations` -/

/-- The loop of `setPlannerConfigurations`, its default record written as `emptySettings`. -/
theorem setPlannerConfigurations_eq (rm : RobotModel) (pconfig : PlannerConfigurationMap) :
    setPlannerConfigurations rm pconfig =
      rm.getJointModelGroups.foldl
        (fun pconfig2 grp =>
          if pconfig.find grp.getName = none then
            pconfig2.insert_or_assign grp.getName (emptySettings grp.getName)
          else pconfig2)
        pconfig := rfl

theorem setPlannerConfigurations_find (rm : RobotModel) (pconfig : PlannerConfigurationMap)
    (k : String) (v : PlannerConfigurationSettings) (h : pconfig.find k = some v) :
    (setPlannerConfigurations rm pconfig).find k = some v := by
  rw [setPlannerConfigurations_eq]
  refine foldl_invariant (fun m => StdMap.find k m = some v) _ _ _ h ?_
  intro acc grp _ hacc
  split
  · rename_i hnone
    have hne : k ≠ grp.getName := by
      intro hk
      rw [hk, hnone] at h
      cases h
    rw [StdMap.find_insert_ne _ _ _ _ hne]
    exact hacc
  · exact hacc

theorem setPlannerConfigurations_entries (rm : RobotModel)
    (pconfig : PlannerConfigurationMap) :
    ∀ e ∈ setPlannerConfigurations rm pconfig,
      e ∈ pconfig ∨
      (e.1 ∈ rm.getJointModelGroupNames ∧ e.2 = emptySettings e.1 ∧
        pconfig.find e.1 = none) := by
  rw [setPlannerConfigurations_eq]
  refine foldl_invariant
    (fun m => ∀ e ∈ m, e ∈ pconfig ∨
      (e.1 ∈ rm.getJointModelGroupNames ∧ e.2 = emptySettings e.1 ∧
        pconfig.find e.1 = none)) _ _ _ (fun e he => Or.inl he) ?_
  intro acc grp hgrp hacc e he
  simp only at he
  split at he
  · rename_i hnone
    rcases StdMap.mem_insert _ _ _ _ he with h | h
    · subst h
      exact Or.inr ⟨List.mem_map.2 ⟨grp, hgrp, rfl⟩, rfl, hnone⟩
    · exact hacc e h
  · exact hacc e he

theorem setPlannerConfigurations_has_group (rm : RobotModel)
    (pconfig : PlannerConfigurationMap) (g : String)
    (hg : g ∈ rm.getJointModelGroupNames) :
    ((setPlannerConfigurations rm pconfig).find g).isSome = true := by
  rw [setPlannerConfigurations_eq]
  obtain ⟨grp0, hgrp0, hname⟩ := List.mem_map.1 hg
  subst hname
  have key : ∀ (gs : List JointModelGroup) (acc : PlannerConfigurationMap),
      (∀ k, (pconfig.find k).isSome = true → (acc.find k).isSome = true) →
      grp0 ∈ gs →
      ((gs.foldl
        (fun pconfig2 grp =>
          if pconfig.find grp.getName = none then
            pconfig2.insert_or_assign grp.getName (emptySettings grp.getName)
          else pconfig2) acc).find grp0.getName).isSome = true := by
    intro gs
    induction gs with
    | nil => intro acc _ h; cases h
    | cons x xs ih =>
      intro acc hacc hmem
      simp only [List.foldl_cons]
      rcases List.mem_cons.1 hmem with h | h
      · subst h
        refine foldl_invariant (fun m => (StdMap.find grp0.getName m).isSome = true) _ xs _ ?_ ?_
        · split
          · rw [StdMap.find_insert_self]; rfl
          · rename_i hsome
            apply hacc
            cases hf : StdMap.find grp0.getName pconfig with
            | none => exact absurd hf hsome
            | some v => rfl
        · intro m grp _ hm
          split
          · exact StdMap.find_isSome_insert _ _ _ _ hm
          · exact hm
      · apply ih _ _ h
        intro k hk
        split
        · exact StdMap.find_isSome_insert _ _ _ _ (hacc k hk)
        · exact hacc k hk
  exact key _ pconfig (fun k hk => hk) hgrp0

theorem setPlannerConfigurations_WF (rm : RobotModel) (pconfig : PlannerConfigurationMap)
    (h : pconfig.WF) : (setPlannerConfigurations rm pconfig).WF := by
  rw [setPlannerConfigurations_eq]
  refine foldl_invariant (fun m => StdMap.WF m) _ _ _ h ?_
  intro acc grp _ hacc
  split
  · exact StdMap.WF_insert _ _ _ hacc
  · exact hacc

theorem loadedConfigurations_WF (env : Env F) (nh : NodeHandle F) (rm : RobotModel) :
    (loadedConfigurations env nh rm).WF := by
  unfold loadedConfigurations
  refine foldl_invariant (fun m => StdMap.WF m) _ _ _ List.Pairwise.nil ?_
  intro acc g _ hacc
  have h1 : StdMap.WF (if specificGroupParams env nh g ≠ [] then
      acc.insert_or_assign g
        { name := g, group := g, config := specificGroupParams env nh g }
      else acc) := by
    split
    · exact StdMap.WF_insert _ _ _ hacc
    · exact hacc
  unfold loadGroup loadGroupConfigs
  split
  · refine foldl_invariant (fun m => StdMap.WF m) _ _ _ h1 ?_
    intro m x _ hm
    unfold loadConfigName
    split
    · split
      · exact StdMap.WF_insert _ _ _ hm
      · exact hm
      · exact hm
    · exact hm
  · exact h1
  · exact h1

theorem loadPlannerConfigurations_WF (env : Env F) (nh : NodeHandle F) (rm : RobotModel) :
    (loadPlannerConfigurations env nh rm).WF :=
  setPlannerConfigurations_WF rm _ (loadedConfigurations_WF env nh rm)

end origin

/-! ## Groups without parameters -/

section noparams

variable {F : Type}

theorem filter_eq_singleton {A : Type} (p : A → Bool) (l : List A) (x : A) (hnd : l.Nodup)
    (hx : x ∈ l) (hpx : p x = true) (hall : ∀ e ∈ l, p e = true → e = x) :
    l.filter p = [x] := by
  induction l with
  | nil => cases hx
  | cons y ys ih =>
    have hnd2 := List.nodup_cons.1 hnd
    by_cases hy : y = x
    · subst hy
      have hrest : ys.filter p = [] := by
        apply List.filter_eq_nil_iff.2
        intro e he hpe
        have := hall e (List.mem_cons_of_mem _ he) hpe
        subst this
        exact hnd2.1 he
      rw [List.filter_cons_of_pos hpx, hrest]
    · have hpy : ¬ p y = true := fun h => hy (hall y (List.mem_cons_self _ _) h)
      rw [List.filter_cons_of_neg hpy]
      apply ih hnd2.2
      · rcases List.mem_cons.1 hx with h | h
        · exact absurd h.symm hy
        · exact h
      · intro e he hpe
        exact hall e (List.mem_cons_of_mem _ he) hpe

theorem StdMap.nodup_of_WF {V : Type} (m : StdMap V) (h : m.WF) : m.Nodup :=
  List.Pairwise.imp (fun hab heq => absurd (congrArg Prod.fst heq) (ne_of_lt hab)) h

theorem readKnownGroupParam_absent (env : Env F) (nh : NodeHandle F) (g p : String)
    (m : StdMap String) (h : nh.hasParam (g ++ "/" ++ p) = false) :
    readKnownGroupParam env nh g m p = m := by
  simp [readKnownGroupParam, h]

theorem specificGroupParams_absent (env : Env F) (nh : NodeHandle F) (g : String)
    (h : ∀ p ∈ KNOWN_GROUP_PARAMS, nh.hasParam (g ++ "/" ++ p) = false) :
    specificGroupParams env nh g = [] := by
  unfold specificGroupParams
  refine foldl_invariant (fun m => m = []) _ _ _ rfl ?_
  intro acc p hp hacc
  rw [readKnownGroupParam_absent env nh g p acc (h p hp)]
  exact hacc

end noparams

theorem loadPlannerConfigurations_has_every_group_aux {F : Type} (env : Env F)
    (nh : NodeHandle F) (rm : RobotModel) (g : String)
    (hg : g ∈ rm.getJointModelGroupNames) :
    ∃ pc, (loadPlannerConfigurations env nh rm).find g = some pc ∧
      (g, pc) ∈ loadPlannerConfigurations env nh rm := by
  have h := setPlannerConfigurations_has_group rm (loadedConfigurations env nh rm) g hg
  obtain ⟨pc, hpc⟩ := Option.isSome_iff_exists.1 h
  exact ⟨pc, hpc, StdMap.mem_of_find g pc _ hpc⟩

/-! ## The group parameters -/

section groupparams

variable {F : Type}

theorem readKnownGroupParam_eq (env : Env F) (nh : NodeHandle F) (g p : String)
    (m : StdMap String) :
    readKnownGroupParam env nh g m p =
      match groupParamValue env nh (g ++ "/" ++ p) with
      | some v => m.insert_or_assign p v
      | none => m := by
  unfold readKnownGroupParam groupParamValue
  by_cases hhas : nh.hasParam (g ++ "/" ++ p) = true
  · simp only [hhas, if_true]
    cases nh.getParamString (g ++ "/" ++ p) with
    | some value =>
      by_cases hv : value = ""
      · simp [hv]
      · simp [hv]
    | none =>
      cases nh.getParamDouble (g ++ "/" ++ p) with
      | some d => rfl
      | none =>
        cases nh.getParamBool (g ++ "/" ++ p) with
        | some b => rfl
        | none => rfl
  · simp [hhas]

theorem find_specificGroupParams (env : Env F) (nh : NodeHandle F) (g p : String)
    (hp : p ∈ KNOWN_GROUP_PARAMS) :
    (specificGroupParams env nh g).find p = groupParamValue env nh (g ++ "/" ++ p) := by
  have hne : "projection_evaluator" ≠ "longest_valid_segment_fraction" := by decide
  have h0 : ∀ (q : String) (m : StdMap String),
      (readKnownGroupParam env nh g m q).find q =
        match groupParamValue env nh (g ++ "/" ++ q) with
        | some v => some v
        | none => m.find q := by
    intro q m
    rw [readKnownGroupParam_eq]
    cases groupParamValue env nh (g ++ "/" ++ q) with
    | some v => exact StdMap.find_insert_self q v m
    | none => rfl
  have h1 : ∀ (q r : String) (m : StdMap String), r ≠ q →
      (readKnownGroupParam env nh g m q).find r = m.find r := by
    intro q r m hrq
    rw [readKnownGroupParam_eq]
    cases groupParamValue env nh (g ++ "/" ++ q) with
    | some v => exact StdMap.find_insert_ne q r v m hrq
    | none => rfl
  simp only [KNOWN_GROUP_PARAMS, List.mem_cons, List.mem_singleton, List.not_mem_nil,
    or_false] at hp
  simp only [specificGroupParams, KNOWN_GROUP_PARAMS, List.foldl_cons, List.foldl_nil]
  rcases hp with hp | hp
  · subst hp
    rw [h1 _ _ _ hne, h0]
    cases groupParamValue env nh (g ++ "/" ++ "projection_evaluator") with
    | some v => rfl
    | none => rfl
  · subst hp
    rw [h0]
    cases hv : groupParamValue env nh (g ++ "/" ++ "longest_valid_segment_fraction") with
    | some v => rfl
    | none =>
      simp only
      rw [h1 _ _ _ hne.symm]
      rfl

end groupparams

/-! ## The members of a configuration struct -/

section members

variable {F : Type}

theorem readConfigMember_eq (env : Env F) (m : StdMap String) (x : String × XmlRpcValue F) :
    readConfigMember env m x =
      match x.2.stringForm env with
      | some s => m.insert_or_assign x.1 s
      | none => m := by
  obtain ⟨k, v⟩ := x
  cases v <;> rfl

theorem find_members_other (env : Env F) (members : List (String × XmlRpcValue F))
    (cfg : StdMap String) (k : String)
    (h : ∀ x ∈ members, x.1 = k → x.2.stringForm env = none) :
    (members.foldl (readConfigMember env) cfg).find k = cfg.find k := by
  refine foldl_invariant (fun m => StdMap.find k m = StdMap.find k cfg) _ _ _ rfl ?_
  intro acc x hx hacc
  rw [readConfigMember_eq]
  cases hs : x.2.stringForm env with
  | none => exact hacc
  | some s =>
    have hne : k ≠ x.1 := by
      intro hk
      rw [h x hx hk.symm] at hs
      cases hs
    simp only
    rw [StdMap.find_insert_ne _ _ _ _ hne]
    exact hacc

theorem find_members_given (env : Env F) (members : List (String × XmlRpcValue F))
    (cfg : StdMap String) (hnd : (members.map Prod.fst).Nodup) (k : String)
    (v : XmlRpcValue F) (s : String) (hmem : (k, v) ∈ members)
    (hs : v.stringForm env = some s) :
    (members.foldl (readConfigMember env) cfg).find k = some s := by
  induction members generalizing cfg with
  | nil => cases hmem
  | cons x xs ih =>
    simp only [List.map_cons, List.nodup_cons] at hnd
    simp only [List.foldl_cons]
    rcases List.mem_cons.1 hmem with h | h
    · subst h
      rw [find_members_other env xs _ k]
      · rw [readConfigMember_eq]
        simp only [hs]
        exact StdMap.find_insert_self k s cfg
      · intro y hy hyk
        exact absurd (List.mem_map.2 ⟨y, hy, hyk⟩) hnd.1
    · exact ih _ hnd.2 h

end members

/-! ## Keys that the loading loop has written stay in the map -/

section reach

variable {F : Type}

/-- If the pass for one element of the list establishes a property and every pass keeps it,
the property holds after the loop. -/
theorem foldl_reaches {A B : Type} (P : B → Prop) (f : B → A → B) (l : List A) (init : B)
    (x : A) (hx : x ∈ l) (hadd : ∀ acc, P (f acc x)) (hkeep : ∀ acc y, P acc → P (f acc y)) :
    P (l.foldl f init) := by
  induction l generalizing init with
  | nil => cases hx
  | cons y ys ih =>
    simp only [List.foldl_cons]
    rcases List.mem_cons.1 hx with h | h
    · subst h
      exact foldl_invariant P f ys _ (hadd init) (fun acc z _ hacc => hkeep acc z hacc)
    · exact ih _ h

theorem loadConfigName_keeps (env : Env F) (nh : NodeHandle F) (g : String)
    (params : StdMap String) (acc : PlannerConfigurationMap) (x : XmlRpcValue F)
    (k : String) (h : (acc.find k).isSome = true) :
    ((loadConfigName env nh g params acc x).find k).isSome = true := by
  unfold loadConfigName
  split
  · split
    · exact StdMap.find_isSome_insert _ _ _ _ h
    · exact h
    · exact h
  · exact h

theorem loadGroup_keeps (env : Env F) (nh : NodeHandle F) (g : String)
    (acc : PlannerConfigurationMap) (k : String) (h : (acc.find k).isSome = true) :
    ((loadGroup env nh acc g).find k).isSome = true := by
  have h1 : ((if specificGroupParams env nh g ≠ [] then
      acc.insert_or_assign g
        { name := g, group := g, config := specificGroupParams env nh g }
      else acc).find k).isSome = true := by
    split
    · exact StdMap.find_isSome_insert _ _ _ _ h
    · exact h
  unfold loadGroup loadGroupConfigs
  split
  · exact foldl_invariant (fun m => (StdMap.find k m).isSome = true) _ _ _ h1
      (fun m x _ hm => loadConfigName_keeps env nh g _ m x k hm)
  · exact h1
  · exact h1

theorem loadedConfigurations_has_config (env : Env F) (nh : NodeHandle F) (rm : RobotModel)
    (g c : String) (elems : List (XmlRpcValue F)) (members : List (String × XmlRpcValue F))
    (hg : g ∈ rm.getJointModelGroupNames)
    (harr : nh.getParamXml (g ++ "/planner_configs") = some (.array elems))
    (hc : XmlRpcValue.string c ∈ elems)
    (hstruct : nh.getParamXml ("planner_configs/" ++ c) = some (.struct members)) :
    ((loadedConfigurations env nh rm).find (g ++ "[" ++ c ++ "]")).isSome = true := by
  unfold loadedConfigurations
  refine foldl_reaches (fun m => (StdMap.find (g ++ "[" ++ c ++ "]") m).isSome = true)
    _ _ _ g hg ?_ (fun acc y hacc => loadGroup_keeps env nh y acc _ hacc)
  intro acc
  unfold loadGroup loadGroupConfigs
  rw [harr]
  simp only
  refine foldl_reaches (fun m => (StdMap.find (g ++ "[" ++ c ++ "]") m).isSome = true)
    _ _ _ (XmlRpcValue.string c) hc ?_
    (fun m y hm => loadConfigName_keeps env nh g _ m y _ hm)
  intro m
  unfold loadConfigName
  simp only [hstruct]
  rw [StdMap.find_insert_self]
  rfl

end reach

/-! ## Keys of different roles -/

section roles

variable {F : Type}

theorem known_param_key_ne_configs_key (g g2 p : String) (hp : p ∈ KNOWN_GROUP_PARAMS) :
    g2 ++ "/planner_configs" ≠ g ++ "/" ++ p := by
  intro h
  simp only [KNOWN_GROUP_PARAMS, List.mem_cons, List.mem_singleton, List.not_mem_nil,
    or_false] at hp
  have h2 := congrArg (fun s => s.data.reverse.head?) h
  rcases hp with hp | hp
  · subst hp
    simp [String.data_append] at h2
  · subst hp
    simp [String.data_append] at h2

theorem stringForm_none_of_not_scalar (env : Env F) (v : XmlRpcValue F)
    (h : v.isConfigScalar = false) : v.stringForm env = none := by
  cases v <;> first | rfl | cases h

theorem configResolves_of_not_string (nh : NodeHandle F) (x : XmlRpcValue F)
    (h : x.isString = false) : configResolves nh x = false := by
  cases x <;> first | rfl | cases h

theorem configResolves_of_missing (nh : NodeHandle F) (c : String)
    (h : nh.getParamXml ("planner_configs/" ++ c) = none) :
    configResolves nh (.string c) = false := by
  simp [configResolves, h]

theorem configResolves_of_not_struct (nh : NodeHandle F) (c : String) (v : XmlRpcValue F)
    (h : nh.getParamXml ("planner_configs/" ++ c) = some v) (hv : v.isStruct = false) :
    configResolves nh (.string c) = false := by
  unfold configResolves
  simp only [h]
  cases v <;> first | rfl | cases hv

end roles

/-! ## Stores that load to the same map -/

section samemap

variable {F : Type}

theorem groupParamValue_congr (env : Env F) (nh nh2 : NodeHandle F) (k : String)
    (h : nh2.hasParam k = nh.hasParam k ∧ nh2.getParamString k = nh.getParamString k ∧
      nh2.getParamDouble k = nh.getParamDouble k ∧ nh2.getParamBool k = nh.getParamBool k) :
    groupParamValue env nh2 k = groupParamValue env nh k := by
  unfold groupParamValue
  rw [h.1, h.2.1, h.2.2.1, h.2.2.2]

/-- A pass over an element that names no resolving configuration changes nothing. -/
theorem loadConfigName_unresolved (env : Env F) (nh : NodeHandle F) (g : String)
    (params : StdMap String) (pc : PlannerConfigurationMap) (x : XmlRpcValue F)
    (h : configResolves nh x = false) : loadConfigName env nh g params pc x = pc := by
  unfold loadConfigName
  unfold configResolves at h
  split
  · rename_i c
    simp only at h
    split
    · rename_i members hm
      rw [hm] at h
      cases h
    · rfl
    · rfl
  · rfl

theorem specificGroupParams_same (env : Env F) (nh nh2 : NodeHandle F) (rm : RobotModel)
    (K g : String) (hg : g ∈ rm.getJointModelGroupNames)
    (hsame : SameOtherReads rm nh nh2 K)
    (hparamK : ∀ p ∈ KNOWN_GROUP_PARAMS, g ++ "/" ++ p = K →
      groupParamValue env nh2 K = groupParamValue env nh K) :
    specificGroupParams env nh2 g = specificGroupParams env nh g := by
  unfold specificGroupParams
  apply foldl_agree
  intro acc p hp
  rw [readKnownGroupParam_eq, readKnownGroupParam_eq]
  by_cases hk : g ++ "/" ++ p = K
  · rw [hk, hparamK p hp hk]
  · rw [groupParamValue_congr env nh nh2 _ (hsame.1 g hg p hp hk)]

theorem loadConfigName_same (env : Env F) (nh nh2 : NodeHandle F) (rm : RobotModel)
    (K : String) (hsame : SameOtherReads rm nh nh2 K)
    (hconfigK : ∀ c, "planner_configs/" ++ c = K → ∀ g params m,
      loadConfigName env nh2 g params m (.string c) =
        loadConfigName env nh g params m (.string c))
    (g0 : String) (hg0 : g0 ∈ rm.getJointModelGroupNames) (elems : List (XmlRpcValue F))
    (harr : nh.getParamXml (g0 ++ "/planner_configs") = some (.array elems))
    (x : XmlRpcValue F) (hx : x ∈ elems) (g : String) (params : StdMap String)
    (m : PlannerConfigurationMap) :
    loadConfigName env nh2 g params m x = loadConfigName env nh g params m x := by
  cases x with
  | string c =>
    by_cases hk : "planner_configs/" ++ c = K
    · exact hconfigK c hk g params m
    · have h := hsame.2.2 g0 hg0 elems c harr hx hk
      unfold loadConfigName
      simp only [h]
  | _ => rfl

/-- Two stores that answer alike to every read of the loading loop at a key other than `K`,
and for which the reads of `K` in each of its roles have the same effect, load to the same
map. -/
theorem loadPlannerConfigurations_same (env : Env F) (nh nh2 : NodeHandle F)
    (rm : RobotModel) (K : String) (hsame : SameOtherReads rm nh nh2 K)
    (hparamK : ∀ g ∈ rm.getJointModelGroupNames, ∀ p ∈ KNOWN_GROUP_PARAMS,
      g ++ "/" ++ p = K → groupParamValue env nh2 K = groupParamValue env nh K)
    (hconfigK : ∀ c, "planner_configs/" ++ c = K → ∀ g params m,
      loadConfigName env nh2 g params m (.string c) =
        loadConfigName env nh g params m (.string c))
    (hgroupK : ∀ g ∈ rm.getJointModelGroupNames, g ++ "/planner_configs" = K →
      ∀ params pc, loadGroupConfigs env nh2 g params pc =
        loadGroupConfigs env nh g params pc) :
    loadPlannerConfigurations env nh2 rm = loadPlannerConfigurations env nh rm := by
  unfold loadPlannerConfigurations loadedConfigurations
  rw [foldl_agree (loadGroup env nh2) (loadGroup env nh) _ _ ?_]
  intro acc g hg
  unfold loadGroup
  rw [specificGroupParams_same env nh nh2 rm K g hg hsame (hparamK g hg)]
  by_cases hk : g ++ "/planner_configs" = K
  · rw [hgroupK g hg hk]
  · unfold loadGroupConfigs
    rw [hsame.2.1 g hg hk]
    cases hx : nh.getParamXml (g ++ "/planner_configs") with
    | none => rfl
    | some v =>
      cases v with
      | array elems =>
        simp only
        apply foldl_agree
        intro m x hx2
        exact loadConfigName_same env nh nh2 rm K hsame hconfigK g hg elems hx x hx2 g _ m
      | _ => rfl

/-- A store that differs from another one at the key `K` only answers alike to every other
read. -/
theorem sameOtherReads_of_agree (rm : RobotModel) (nh nh2 : NodeHandle F) (K : String)
    (h : ∀ k, k ≠ K → nh2.hasParam k = nh.hasParam k ∧
      nh2.getParamString k = nh.getParamString k ∧
      nh2.getParamDouble k = nh.getParamDouble k ∧
      nh2.getParamBool k = nh.getParamBool k ∧ nh2.getParamXml k = nh.getParamXml k) :
    SameOtherReads rm nh nh2 K :=
  ⟨fun _ _ _ _ hk => ⟨(h _ hk).1, (h _ hk).2.1, (h _ hk).2.2.1, (h _ hk).2.2.2.1⟩,
   fun _ _ hk => (h _ hk).2.2.2.2,
   fun _ _ _ _ _ _ hk => (h _ hk).2.2.2.2⟩

/-! ### A removed `planner_configs` value that is not an array -/

theorem loadPlannerConfigurations_without_list (env : Env F) (nh nh2 : NodeHandle F)
    (rm : RobotModel) (g0 : String) (v : XmlRpcValue F)
    (hK : nh.getParamXml (g0 ++ "/planner_configs") = some v) (harr : v.isArray = false)
    (hK2 : nh2.getParamXml (g0 ++ "/planner_configs") = none)
    (hrole : ∀ c, "planner_configs/" ++ c = g0 ++ "/planner_configs" → v.isStruct = false)
    (hsame : SameOtherReads rm nh nh2 (g0 ++ "/planner_configs")) :
    loadPlannerConfigurations env nh2 rm = loadPlannerConfigurations env nh rm := by
  apply loadPlannerConfigurations_same env nh nh2 rm _ hsame
  · intro g _ p hp hk
    exact absurd hk.symm (known_param_key_ne_configs_key g g0 p hp)
  · intro c hk g params m
    rw [loadConfigName_unresolved env nh2 g params m _
        (configResolves_of_missing nh2 c (hk ▸ hK2)),
      loadConfigName_unresolved env nh g params m _
        (configResolves_of_not_struct nh c v (hk ▸ hK) (hrole c hk))]
  · intro g _ hk params pc
    unfold loadGroupConfigs
    rw [hk, hK2, hK]
    cases v <;> first | rfl | cases harr

/-! ### A removed element of a `planner_configs` array -/

theorem loadPlannerConfigurations_without_element (env : Env F) (nh nh2 : NodeHandle F)
    (rm : RobotModel) (g0 : String) (elems : List (XmlRpcValue F)) (j : Nat)
    (hj : j < elems.length)
    (hK : nh.getParamXml (g0 ++ "/planner_configs") = some (.array elems))
    (hK2 : nh2.getParamXml (g0 ++ "/planner_configs") = some (.array (elems.eraseIdx j)))
    (hx : configResolves nh (elems.get ⟨j, hj⟩) = false)
    (hsame : SameOtherReads rm nh nh2 (g0 ++ "/planner_configs")) :
    loadPlannerConfigurations env nh2 rm = loadPlannerConfigurations env nh rm := by
  have hconfigK : ∀ c, "planner_configs/" ++ c = g0 ++ "/planner_configs" → ∀ g params m,
      loadConfigName env nh2 g params m (.string c) =
        loadConfigName env nh g params m (.string c) := by
    intro c hk g params m
    rw [loadConfigName_unresolved env nh2 g params m _
        (configResolves_of_not_struct nh2 c (.array (elems.eraseIdx j)) (hk ▸ hK2) rfl),
      loadConfigName_unresolved env nh g params m _
        (configResolves_of_not_struct nh c (.array elems) (hk ▸ hK) rfl)]
  apply loadPlannerConfigurations_same env nh nh2 rm _ hsame
  · intro g _ p hp hk
    exact absurd hk.symm (known_param_key_ne_configs_key g g0 p hp)
  · exact hconfigK
  · intro g hg hk params pc
    unfold loadGroupConfigs
    rw [hk, hK2, hK]
    simp only
    rw [foldl_agree (loadConfigName env nh2 g params) (loadConfigName env nh g params)
      (elems.eraseIdx j) pc ?_]
    · exact foldl_eraseIdx _ elems pc j hj
        (fun acc => loadConfigName_unresolved env nh g params acc _ hx)
    · intro m x hx2
      exact loadConfigName_same env nh nh2 rm _ hsame hconfigK g hg elems (hk ▸ hK) x
        (List.mem_of_mem_eraseIdx hx2) g params m

/-! ### A removed group parameter that no typed read can read -/

theorem loadPlannerConfigurations_without_param (env : Env F) (nh nh2 : NodeHandle F)
    (rm : RobotModel) (g0 p0 : String) (hp0 : p0 ∈ KNOWN_GROUP_PARAMS)
    (hval : groupParamValue env nh (g0 ++ "/" ++ p0) = none)
    (hhas2 : nh2.hasParam (g0 ++ "/" ++ p0) = false)
    (hK2 : nh2.getParamXml (g0 ++ "/" ++ p0) = none)
    (hrole : ∀ c, "planner_configs/" ++ c = g0 ++ "/" ++ p0 →
      ∀ members, nh.getParamXml (g0 ++ "/" ++ p0) ≠ some (.struct members))
    (hsame : SameOtherReads rm nh nh2 (g0 ++ "/" ++ p0)) :
    loadPlannerConfigurations env nh2 rm = loadPlannerConfigurations env nh rm := by
  apply loadPlannerConfigurations_same env nh nh2 rm _ hsame
  · intro g _ p _ _
    rw [hval]
    simp [groupParamValue, hhas2]
  · intro c hk g params m
    have h1 : configResolves nh (.string c) = false := by
      unfold configResolves
      simp only [hk]
      split
      · rename_i members hm
        exact absurd hm (hrole c hk members)
      · rfl
    rw [loadConfigName_unresolved env nh2 g params m _
        (configResolves_of_missing nh2 c (hk ▸ hK2)),
      loadConfigName_unresolved env nh g params m _ h1]
  · intro g _ hk
    exact absurd hk (known_param_key_ne_configs_key g0 g p0 hp0)

/-! ### A removed member of a configuration struct -/

theorem loadPlannerConfigurations_without_member (env : Env F) (nh nh2 : NodeHandle F)
    (rm : RobotModel) (c0 : String) (members : List (String × XmlRpcValue F)) (i : Nat)
    (hi : i < members.length)
    (hK : nh.getParamXml ("planner_configs/" ++ c0) = some (.struct members))
    (hK2 : nh2.getParamXml ("planner_configs/" ++ c0) =
      some (.struct (members.eraseIdx i)))
    (hx : (members.get ⟨i, hi⟩).2.stringForm env = none)
    (htyped : nh2.hasParam ("planner_configs/" ++ c0) = nh.hasParam ("planner_configs/" ++ c0)
      ∧ nh2.getParamString ("planner_configs/" ++ c0) =
        nh.getParamString ("planner_configs/" ++ c0)
      ∧ nh2.getParamDouble ("planner_configs/" ++ c0) =
        nh.getParamDouble ("planner_configs/" ++ c0)
      ∧ nh2.getParamBool ("planner_configs/" ++ c0) =
        nh.getParamBool ("planner_configs/" ++ c0))
    (hsame : SameOtherReads rm nh nh2 ("planner_configs/" ++ c0)) :
    loadPlannerConfigurations env nh2 rm = loadPlannerConfigurations env nh rm := by
  apply loadPlannerConfigurations_same env nh nh2 rm _ hsame
  · intro g _ p _ _
    exact groupParamValue_congr env nh nh2 _ htyped
  · intro c hk g params m
    have hrec : plannerConfigSettings env g params c (members.eraseIdx i) =
        plannerConfigSettings env g params c members := by
      unfold plannerConfigSettings
      rw [foldl_eraseIdx (readConfigMember env) members params i hi]
      intro acc
      rw [readConfigMember_eq, hx]
    unfold loadConfigName
    simp only [hk, hK, hK2, hrec]
  · intro g _ hk params pc
    unfold loadGroupConfigs
    rw [hk, hK2, hK]

end samemap

/-! ## The policy flag -/

section flag

variable {F C O S E X : Type}

theorem setPlannerConfigurations_flag (w : Collaborators F C O S E X)
    (self self2 : OMPLPlannerManager F C O S E X) (pconfig : PlannerConfigurationMap)
    (h : self.setPlannerConfigurations w pconfig = some self2) :
    self2.simplify_solutions_ = self.simplify_solutions_ := by
  unfold OMPLPlannerManager.setPlannerConfigurations at h
  split at h
  · simp only [Option.some.injEq] at h
    rw [← h]
  · cases h

theorem loadPlannerConfigurations_flag (w : Collaborators F C O S E X)
    (self self2 : OMPLPlannerManager F C O S E X)
    (h : self.loadPlannerConfigurations w = some self2) :
    self2.simplify_solutions_ = self.simplify_solutions_ := by
  unfold OMPLPlannerManager.loadPlannerConfigurations at h
  split at h
  · exact setPlannerConfigurations_flag w self self2 _ h
  · cases h

theorem after_flag (w : Collaborators F C O S E X)
    (self self2 : OMPLPlannerManager F C O S E X) (call : Call C O S E X)
    (h : self.after w call = some self2) :
    self2.simplify_solutions_ = self.simplify_solutions_ := by
  cases call with
  | initialise robot_model ns =>
    simp only [OMPLPlannerManager.after, OMPLPlannerManager.initialise] at h
    have h2 := loadPlannerConfigurations_flag w _ self2 h
    exact h2
  | loadPlannerConfigurations => exact loadPlannerConfigurations_flag w self self2 h
  | setPlannerConfigurations pconfig => exact setPlannerConfigurations_flag w self self2 _ h
  | canServiceRequest req =>
    simp only [OMPLPlannerManager.after, Option.some.injEq] at h
    rw [← h]
  | getPlanningAlgorithms algs =>
    simp only [OMPLPlannerManager.after, Option.some.injEq] at h
    rw [← h]
  | getPlanningContext sc req ec =>
    simp only [OMPLPlannerManager.after, Option.some.injEq] at h
    rw [← h]
  | configureContext ctx =>
    simp only [OMPLPlannerManager.after, Option.some.injEq] at h
    rw [← h]
  | printStatus =>
    simp only [OMPLPlannerManager.after, OMPLPlannerManager.printStatus,
      Option.some.injEq] at h
    rw [← h]

theorem afterCalls_flag (w : Collaborators F C O S E X) (calls : List (Call C O S E X))
    (self : OMPLPlannerManager F C O S E X)
    (h : OMPLPlannerManager.afterCalls w calls = some self) :
    self.simplify_solutions_ = true := by
  induction calls generalizing self with
  | nil =>
    simp only [OMPLPlannerManager.afterCalls, Option.some.injEq] at h
    rw [← h]
    rfl
  | cons c cs ih =>
    simp only [OMPLPlannerManager.afterCalls] at h
    split at h
    · rename_i prev hprev
      rw [after_flag w prev self c h]
      exact ih prev hprev
    · cases h

end flag

/-- C9: `getPlanningAlgorithms` leaves in `algs` exactly the keys of the configuration map, in
the iteration order of the map, whatever `algs` held before: the length is the number of
configurations, a name is listed exactly when the map has it as a key, and for a `std::map`
(keys strictly ascending) the names are strictly ascending, so each occurs once. -/
theorem getPlanningAlgorithms_keys (pconfig : PlannerConfigurationMap) (algs : List String) :
    getPlanningAlgorithms pconfig algs = pconfig.keys ∧
    (getPlanningAlgorithms pconfig algs).length = pconfig.length ∧
    (∀ k, k ∈ getPlanningAlgorithms pconfig algs ↔ (StdMap.find k pconfig).isSome = true) ∧
    (pconfig.WF →
      (getPlanningAlgorithms pconfig algs).Pairwise (fun a b => a < b) ∧
      (getPlanningAlgorithms pconfig algs).Nodup) := by
  have h : getPlanningAlgorithms pconfig algs = pconfig.keys := by
    simp [getPlanningAlgorithms, foldl_push_back, clear]
  refine ⟨h, ?_, ?_, ?_⟩
  · rw [h]; simp [StdMap.keys]
  · intro k; rw [h]; exact mem_keys_iff_find pconfig k
  · intro hwf
    rw [h]
    have hp := keys_pairwise_of_WF pconfig hwf
    exact ⟨hp, hp.imp (fun hab => ne_of_lt hab)⟩

/-- C3: `canServiceRequest` answers `false` for a request with at least one trajectory
constraint and `true` for a request with none, and two requests with the same trajectory
constraints get the same answer whatever their other fields are; the answer is a plain
boolean. -/
theorem canServiceRequest_iff {C O : Type} (req req2 : MotionPlanRequest C O) :
    (req.trajectory_constraints.constraints ≠ [] → canServiceRequest req = false) ∧
    (req.trajectory_constraints.constraints = [] → canServiceRequest req = true) ∧
    (req2.trajectory_constraints.constraints = req.trajectory_constraints.constraints →
      canServiceRequest req2 = canServiceRequest req) := by
  refine ⟨?_, ?_, ?_⟩
  · intro h
    cases hc : req.trajectory_constraints.constraints with
    | nil => exact absurd hc h
    | cons c cs => simp [canServiceRequest, hc]
  · intro h
    simp [canServiceRequest, h]
  · intro h
    simp [canServiceRequest, h]

theorem canServiceRequest_iff_witness :
    canServiceRequest requestWith = false ∧ canServiceRequest requestWithout = true ∧
    canServiceRequest (⟨⟨[]⟩, "arm"⟩ : MotionPlanRequest Nat String) =
      canServiceRequest requestWithout :=
  ⟨(canServiceRequest_iff requestWith requestWith).1 (by decide),
   (canServiceRequest_iff requestWithout requestWithout).2.1 rfl,
   (canServiceRequest_iff requestWithout ⟨⟨[]⟩, "arm"⟩).2.2 rfl⟩

theorem getPlanningAlgorithms_keys_witness :
    getPlanningAlgorithms exampleMap ["stale"] = ["arm", "arm[RRT]"] ∧
    (getPlanningAlgorithms exampleMap ["stale"]).Nodup :=
  ⟨(getPlanningAlgorithms_keys exampleMap ["stale"]).1,
   ((getPlanningAlgorithms_keys exampleMap ["stale"]).2.2.2
      (by
        simp only [StdMap.WF, exampleMap, List.pairwise_cons, List.mem_singleton,
          List.not_mem_nil, forall_eq, false_implies, implies_true, List.Pairwise.nil,
          and_true]
        exact (StdMap.string_less_iff _ _).1 (by decide))).2⟩

/-- C1: after `loadPlannerConfigurations`, the map handed to the context manager has, for
every joint group name of the robot model, an entry whose key is that name. -/
theorem loadPlannerConfigurations_has_every_group {F : Type} (env : Env F)
    (nh : NodeHandle F) (rm : RobotModel) (g : String)
    (hg : g ∈ rm.getJointModelGroupNames) :
    ∃ pc, (loadPlannerConfigurations env nh rm).find g = some pc ∧
      (g, pc) ∈ loadPlannerConfigurations env nh rm := by
  exact loadPlannerConfigurations_has_every_group_aux env nh rm g hg

theorem loadPlannerConfigurations_has_every_group_witness :
    ∃ pc, (loadPlannerConfigurations exampleEnv exampleStore exampleModel).find "base"
        = some pc ∧
      ("base", pc) ∈ loadPlannerConfigurations exampleEnv exampleStore exampleModel :=
  loadPlannerConfigurations_has_every_group exampleEnv exampleStore exampleModel "base"
    (by decide)

/-- C8: every entry `(k, r)` of the map built by `loadPlannerConfigurations` and completed by
`setPlannerConfigurations` is stored under its own name (`r.name = k`, and looking `k` up
gives `r`), `r.group` is a joint group name of the robot model, and `k` is `r.group` or
`r.group` followed by `[c]` for a string element `c` of the `planner_configs` array of that
group. -/
theorem loadPlannerConfigurations_entry_shape {F : Type} (env : Env F) (nh : NodeHandle F)
    (rm : RobotModel) (k : String) (r : PlannerConfigurationSettings)
    (h : (k, r) ∈ loadPlannerConfigurations env nh rm) :
    r.name = k ∧ (loadPlannerConfigurations env nh rm).find k = some r ∧
    r.group ∈ rm.getJointModelGroupNames ∧
    (k = r.group ∨
      ∃ c elems, nh.getParamXml (r.group ++ "/planner_configs") = some (.array elems) ∧
        XmlRpcValue.string c ∈ elems ∧ k = r.group ++ "[" ++ c ++ "]") := by
  have hfind := StdMap.find_of_mem_WF k r _ (loadPlannerConfigurations_WF env nh rm) h
  rcases setPlannerConfigurations_entries rm _ (k, r) h with h1 | ⟨h1, h2, _⟩
  · have hl := loadedConfigurations_entries env nh rm (k, r) h1
    refine ⟨LoadedEntry.name_eq env nh _ (k, r) hl, hfind, hl.1, ?_⟩
    rcases hl.2 with ⟨h3, _, _⟩ | ⟨c, elems, members, h4, h5, _, h7, _⟩
    · exact Or.inl h3
    · exact Or.inr ⟨c, elems, h4, h5, h7⟩
  · simp only at h1 h2
    subst h2
    exact ⟨rfl, hfind, h1, Or.inl rfl⟩

theorem loadPlannerConfigurations_entry_shape_witness :
    (PlannerConfigurationSettings.mk "arm" "arm[RRT]"
        [("projection_evaluator", "link(tip)"), ("range", "7"), ("verbose", "1")]).name
      = "arm[RRT]" ∧
    (loadPlannerConfigurations exampleEnv exampleStore exampleModel).find "arm[RRT]" =
      some ⟨"arm", "arm[RRT]",
        [("projection_evaluator", "link(tip)"), ("range", "7"), ("verbose", "1")]⟩ ∧
    "arm" ∈ exampleModel.getJointModelGroupNames ∧
    ("arm[RRT]" = "arm" ∨
      ∃ c elems, exampleStore.getParamXml ("arm" ++ "/planner_configs")
          = some (.array elems) ∧
        XmlRpcValue.string c ∈ elems ∧ "arm[RRT]" = "arm" ++ "[" ++ c ++ "]") :=
  loadPlannerConfigurations_entry_shape exampleEnv exampleStore exampleModel "arm[RRT]"
    ⟨"arm", "arm[RRT]",
      [("projection_evaluator", "link(tip)"), ("range", "7"), ("verbose", "1")]⟩
    (by decide)

theorem group_without_params_of_free_key {F : Type} (env : Env F)
    (nh : NodeHandle F) (rm : RobotModel) (g : String)
    (hg : g ∈ rm.getJointModelGroupNames)
    (hp : ∀ p ∈ KNOWN_GROUP_PARAMS, nh.hasParam (g ++ "/" ++ p) = false)
    (hc : nh.getParamXml (g ++ "/planner_configs") = none)
    (hkey : ∀ g2 c elems members, g2 ∈ rm.getJointModelGroupNames →
      nh.getParamXml (g2 ++ "/planner_configs") = some (.array elems) →
      XmlRpcValue.string c ∈ elems →
      nh.getParamXml ("planner_configs/" ++ c) = some (.struct members) →
      g2 ++ "[" ++ c ++ "]" ≠ g) :
    (loadPlannerConfigurations env nh rm).filter (fun e => e.2.group = g) =
      [(g, { name := g, group := g, config := [] })] ∧
    (loadPlannerConfigurations env nh rm).find g =
      some { name := g, group := g, config := [] } := by
  have hparams := specificGroupParams_absent env nh g hp
  have hnone : (loadedConfigurations env nh rm).find g = none := by
    cases hf : (loadedConfigurations env nh rm).find g with
    | none => rfl
    | some v =>
      exfalso
      have hl := loadedConfigurations_entries env nh rm (g, v) (StdMap.mem_of_find g v _ hf)
      rcases hl.2 with ⟨h1, h2, _⟩ | ⟨c, elems, members, h4, h5, h6, h7, _⟩
      · simp only at h1 h2
        rw [← h1] at h2
        exact h2 hparams
      · exact hkey _ c elems members hl.1 h4 h5 h6 h7.symm
  have hall : ∀ e ∈ loadPlannerConfigurations env nh rm, e.2.group = g →
      e = (g, emptySettings g) := by
    intro e he hgrp
    rcases setPlannerConfigurations_entries rm _ e he with h1 | ⟨_, h2, _⟩
    · exfalso
      have hl := loadedConfigurations_entries env nh rm e h1
      rcases hl.2 with ⟨_, h2, _⟩ | ⟨c, elems, members, h4, _⟩
      · rw [hgrp] at h2
        exact h2 hparams
      · rw [hgrp, hc] at h4
        cases h4
    · obtain ⟨k, r⟩ := e
      simp only at h2 hgrp
      subst h2
      simp only [emptySettings] at hgrp
      subst hgrp
      rfl
  obtain ⟨pc, hpc, hmem⟩ := loadPlannerConfigurations_has_every_group_aux env nh rm g hg
  have hpc2 : pc = emptySettings g := by
    rcases setPlannerConfigurations_entries rm _ (g, pc) hmem with h1 | ⟨_, h2, _⟩
    · have := StdMap.find_isSome_of_mem g pc _ h1
      rw [hnone] at this
      cases this
    · exact h2
  subst hpc2
  refine ⟨?_, hpc⟩
  exact filter_eq_singleton _ _ _
    (StdMap.nodup_of_WF _ (loadPlannerConfigurations_WF env nh rm)) hmem
    (by simp [emptySettings]) (fun e he hpe => hall e he (by simpa using hpe))

/-- C5: for every group `g` that has neither of the known group parameters nor a
`planner_configs` parameter in the store, the completed map has exactly one entry of group
`g`: its key and name are `g`, its group is `g` and its parameter map is empty.  The name of
the group is one that the node handle accepts in a parameter key: ROS graph names consist of
letters, digits, `_` and `/`, so the name has no `[`. -/
theorem loadPlannerConfigurations_group_without_params {F : Type} (env : Env F)
    (nh : NodeHandle F) (rm : RobotModel) (g : String)
    (hg : g ∈ rm.getJointModelGroupNames)
    (hp : ∀ p ∈ KNOWN_GROUP_PARAMS, nh.hasParam (g ++ "/" ++ p) = false)
    (hc : nh.getParamXml (g ++ "/planner_configs") = none)
    (hname : '[' ∉ g.data) :
    (loadPlannerConfigurations env nh rm).filter (fun e => e.2.group = g) =
      [(g, { name := g, group := g, config := [] })] ∧
    (loadPlannerConfigurations env nh rm).find g =
      some { name := g, group := g, config := [] } := by
  apply group_without_params_of_free_key env nh rm g hg hp hc
  intro g2 c _ _ _ _ _ _ h
  apply hname
  rw [← h]
  simp [String.data_append]

theorem loadPlannerConfigurations_group_without_params_witness :
    (loadPlannerConfigurations exampleEnv exampleStore exampleModel).filter
        (fun e => e.2.group = "base") =
      [("base", { name := "base", group := "base", config := [] })] ∧
    (loadPlannerConfigurations exampleEnv exampleStore exampleModel).find "base" =
      some { name := "base", group := "base", config := [] } :=
  loadPlannerConfigurations_group_without_params exampleEnv exampleStore exampleModel "base"
    (by decide) (by decide) (by rfl) (by decide)

/-- C4, as stated, fails: the parameter `arm/projection_evaluator` is present, its first
successful typed read is the string read, with the empty string as value, and nothing is
stored under `projection_evaluator`. -/
theorem known_group_param_counterexample :
    "projection_evaluator" ∈ KNOWN_GROUP_PARAMS ∧
    emptyStringStore.hasParam ("arm" ++ "/" ++ "projection_evaluator") = true ∧
    firstSuccessfulRead exampleEnv emptyStringStore ("arm" ++ "/" ++ "projection_evaluator")
      = some "" ∧
    (specificGroupParams exampleEnv emptyStringStore "arm").find "projection_evaluator"
      = none ∧
    (specificGroupParams exampleEnv emptyStringStore "arm").find "projection_evaluator" ≠
      firstSuccessfulRead exampleEnv emptyStringStore
        ("arm" ++ "/" ++ "projection_evaluator") := by
  decide

/-- C4, amended: for a known group parameter `p` present in the store under `g/p`, a string
read that succeeds with a non-empty value stores that value under `p`; a string read that
succeeds with the empty string stores nothing under `p`; when the string read fails and the
double read succeeds, the text of the double is stored; when the string, double and int reads
fail and the bool read succeeds, the text of the bool is stored; when all four reads fail
nothing is stored.  (Nothing is said about a parameter readable as an int and not as a
double.) -/
theorem specificGroupParams_known_param {F : Type} (env : Env F) (nh : NodeHandle F)
    (g p : String) (hp : p ∈ KNOWN_GROUP_PARAMS)
    (hhas : nh.hasParam (g ++ "/" ++ p) = true) :
    (∀ s, nh.getParamString (g ++ "/" ++ p) = some s → s ≠ "" →
      (specificGroupParams env nh g).find p = some s) ∧
    (nh.getParamString (g ++ "/" ++ p) = some "" →
      (specificGroupParams env nh g).find p = none) ∧
    (∀ d, nh.getParamString (g ++ "/" ++ p) = none →
      nh.getParamDouble (g ++ "/" ++ p) = some d →
      (specificGroupParams env nh g).find p = some (env.lexical_cast_double d)) ∧
    (∀ b, nh.getParamString (g ++ "/" ++ p) = none →
      nh.getParamDouble (g ++ "/" ++ p) = none →
      nh.getParamInt (g ++ "/" ++ p) = none →
      nh.getParamBool (g ++ "/" ++ p) = some b →
      (specificGroupParams env nh g).find p = some (lexical_cast_bool b)) ∧
    (nh.getParamString (g ++ "/" ++ p) = none →
      nh.getParamDouble (g ++ "/" ++ p) = none →
      nh.getParamInt (g ++ "/" ++ p) = none →
      nh.getParamBool (g ++ "/" ++ p) = none →
      (specificGroupParams env nh g).find p = none) := by
  rw [find_specificGroupParams env nh g p hp]
  unfold groupParamValue
  refine ⟨?_, ?_, ?_, ?_, ?_⟩
  · intro s hs hne
    simp [hhas, hs, hne]
  · intro hs
    simp [hhas, hs]
  · intro d hs hd
    simp [hhas, hs, hd]
  · intro b hs hd _ hb
    simp [hhas, hs, hd, hb]
  · intro hs hd _ hb
    simp [hhas, hs, hd, hb]

theorem specificGroupParams_known_param_witness :
    (specificGroupParams exampleEnv exampleStore "arm").find "projection_evaluator" =
      some "joints(a,b)" :=
  (specificGroupParams_known_param exampleEnv exampleStore "arm" "projection_evaluator"
    (by decide) (by decide)).1 "joints(a,b)" (by decide) (by decide)

/-- The third read of lines 110-112 reads into the `double` again: from a store in which a
parameter can be read as an `int` and not as a `double` (each typed read of the store may
succeed or fail on its own), nothing is stored for it. -/
theorem int_only_param_not_stored :
    firstSuccessfulRead exampleEnv intOnlyStore "arm/longest_valid_segment_fraction"
      = some "5" ∧
    specificGroupParams exampleEnv intOnlyStore "arm" = [] := by
  decide

/-- C2: for a group `g` and a configuration name `c` listed in the `planner_configs` array
of `g` whose stored value is a struct (with pairwise distinct member names, as in an XML-RPC
struct), the record built for `g[c]` has name `g[c]` and group `g`, and its parameter map is
the group-level map of `g` overlaid with the members of the struct: a key to which the struct
gives a string, double, int or bool value has the text of that value, also when `g` defines
the key, and every other key has the group-level value of `g`.  The loop stores this record
under `g[c]`, and it is the entry `g[c]` of the completed map whenever no other pair of a
group and a configuration name spells the same key and no group is named `g[c]`. -/
theorem plannerConfigSettings_overlay {F : Type} (env : Env F) (nh : NodeHandle F)
    (rm : RobotModel) (g c : String) (elems : List (XmlRpcValue F))
    (members : List (String × XmlRpcValue F))
    (hg : g ∈ rm.getJointModelGroupNames)
    (harr : nh.getParamXml (g ++ "/planner_configs") = some (.array elems))
    (hc : XmlRpcValue.string c ∈ elems)
    (hstruct : nh.getParamXml ("planner_configs/" ++ c) = some (.struct members))
    (hnd : (members.map Prod.fst).Nodup) :
    (plannerConfigSettings env g (specificGroupParams env nh g) c members).name
      = g ++ "[" ++ c ++ "]" ∧
    (plannerConfigSettings env g (specificGroupParams env nh g) c members).group = g ∧
    (∀ k v s, (k, v) ∈ members → v.stringForm env = some s →
      (plannerConfigSettings env g (specificGroupParams env nh g) c members).config.find k
        = some s) ∧
    (∀ k, (∀ v, (k, v) ∈ members → v.stringForm env = none) →
      (plannerConfigSettings env g (specificGroupParams env nh g) c members).config.find k
        = (specificGroupParams env nh g).find k) ∧
    (∀ pconfig,
      (loadConfigName env nh g (specificGroupParams env nh g) pconfig (.string c)).find
          (g ++ "[" ++ c ++ "]")
        = some (plannerConfigSettings env g (specificGroupParams env nh g) c members)) ∧
    ((∀ g2 c2, g2 ∈ rm.getJointModelGroupNames →
        g2 ++ "[" ++ c2 ++ "]" = g ++ "[" ++ c ++ "]" → g2 = g ∧ c2 = c) →
      g ++ "[" ++ c ++ "]" ∉ rm.getJointModelGroupNames →
      (loadPlannerConfigurations env nh rm).find (g ++ "[" ++ c ++ "]")
        = some (plannerConfigSettings env g (specificGroupParams env nh g) c members)) := by
  refine ⟨rfl, rfl, ?_, ?_, ?_, ?_⟩
  · intro k v s hmem hs
    exact find_members_given env members _ hnd k v s hmem hs
  · intro k hk
    apply find_members_other env members _ k
    intro x hx hxk
    obtain ⟨k1, v1⟩ := x
    simp only at hxk
    subst hxk
    exact hk v1 hx
  · intro pconfig
    unfold loadConfigName
    simp only [hstruct]
    exact StdMap.find_insert_self _ _ _
  · intro hcol hname
    have hsome := loadedConfigurations_has_config env nh rm g c elems members hg harr hc
      hstruct
    obtain ⟨r, hr⟩ := Option.isSome_iff_exists.1 hsome
    have hl := loadedConfigurations_entries env nh rm _ (StdMap.mem_of_find _ r _ hr)
    have hr2 : r = plannerConfigSettings env g (specificGroupParams env nh g) c members := by
      rcases hl.2 with ⟨h1, _, _⟩ | ⟨c2, elems2, members2, _, _, h6, h7, h8⟩
      · simp only at h1
        exact absurd (h1 ▸ hl.1) hname
      · simp only at h7 h8 h6
        obtain ⟨hg2, hc2⟩ := hcol r.group c2 hl.1 h7.symm
        rw [hc2, hstruct] at h6
        simp only [Option.some.injEq, XmlRpcValue.struct.injEq] at h6
        rw [h8, hg2, hc2, h6]
    rw [← hr2]
    exact setPlannerConfigurations_find rm _ _ r hr

theorem plannerConfigSettings_overlay_witness :
    (plannerConfigSettings exampleEnv "arm" (specificGroupParams exampleEnv exampleStore "arm")
        "RRT" [("projection_evaluator", .string "link(tip)"), ("range", .int 7),
          ("shape", .array []), ("verbose", .boolean true)]).config.find
        "projection_evaluator" = some "link(tip)" ∧
    (loadPlannerConfigurations exampleEnv exampleStore exampleModel).find
        ("arm" ++ "[" ++ "RRT" ++ "]") =
      some (plannerConfigSettings exampleEnv "arm"
        (specificGroupParams exampleEnv exampleStore "arm") "RRT"
        [("projection_evaluator", .string "link(tip)"), ("range", .int 7),
          ("shape", .array []), ("verbose", .boolean true)]) :=
  ⟨(plannerConfigSettings_overlay exampleEnv exampleStore exampleModel "arm" "RRT"
      [.string "RRT", .int 3, .string "PRM"]
      [("projection_evaluator", .string "link(tip)"), ("range", .int 7),
        ("shape", .array []), ("verbose", .boolean true)]
      (by decide) (by rfl) (by simp) (by rfl) (by decide)).2.2.1
      "projection_evaluator" (.string "link(tip)") "link(tip)" (by simp) rfl,
   (plannerConfigSettings_overlay exampleEnv exampleStore exampleModel "arm" "RRT"
      [.string "RRT", .int 3, .string "PRM"]
      [("projection_evaluator", .string "link(tip)"), ("range", .int 7),
        ("shape", .array []), ("verbose", .boolean true)]
      (by decide) (by rfl) (by simp) (by rfl) (by decide)).2.2.2.2.2
      (by
        intro g2 c2 hg2 heq
        have hd := congrArg String.data heq
        simp only [exampleModel, RobotModel.getJointModelGroupNames,
          JointModelGroup.getName, List.map_cons, List.map_nil, List.mem_cons,
          List.mem_singleton, List.not_mem_nil, or_false] at hg2
        rcases hg2 with hg2 | hg2 | hg2
        · subst hg2
          have h3 : c2.data ++ [']'] = ['R', 'R', 'T'] ++ [']'] := by
            simpa [String.data_append] using hd
          exact ⟨rfl, String.ext (List.append_cancel_right h3)⟩
        · subst hg2
          simp [String.data_append] at hd
        · subst hg2
          simp [String.data_append] at hd)
      (by decide)⟩

/-- C6, as stated, fails: the `planner_configs` value of the group `planner_configs` is not an
array, the second store is the first one with that value deleted (its key is absent and every
other read of the loading loop is answered alike), and the loaded maps differ, because the
same key is read as the configuration `planner_configs` of the group `arm`. -/
theorem malformed_item_counterexample :
    "planner_configs" ∈ sharedKeyModel.getJointModelGroupNames ∧
    (sharedKeyStore.getParamXml ("planner_configs" ++ "/planner_configs")).map
      XmlRpcValue.isArray = some false ∧
    sharedKeyStoreWithout.getParamXml ("planner_configs" ++ "/planner_configs") = none ∧
    SameOtherReads sharedKeyModel sharedKeyStore sharedKeyStoreWithout
      ("planner_configs" ++ "/planner_configs") ∧
    loadPlannerConfigurations exampleEnv sharedKeyStore sharedKeyModel =
      [("arm", ⟨"arm", "arm", []⟩),
       ("arm[planner_configs]", ⟨"arm", "arm[planner_configs]", [("range", "1")]⟩),
       ("planner_configs", ⟨"planner_configs", "planner_configs", []⟩)] ∧
    loadPlannerConfigurations exampleEnv sharedKeyStoreWithout sharedKeyModel =
      [("arm", ⟨"arm", "arm", []⟩),
       ("planner_configs", ⟨"planner_configs", "planner_configs", []⟩)] ∧
    loadPlannerConfigurations exampleEnv sharedKeyStoreWithout sharedKeyModel ≠
      loadPlannerConfigurations exampleEnv sharedKeyStore sharedKeyModel :=
  ⟨by decide, by rfl, by rfl,
    sameOtherReads_of_agree _ _ _ _ (by
      intro k hk
      have hk2 : k ≠ "planner_configs/planner_configs" := hk
      refine ⟨rfl, rfl, rfl, rfl, ?_⟩
      simp only [sharedKeyStore, sharedKeyStoreWithout, hk2, if_false]),
    by decide, by decide, by decide⟩

/-- C6, amended: `loadPlannerConfigurations` is a total function of the store, and a
malformed item contributes nothing: the map is the same on every store in which the item is
removed and every other read of the loading loop (the known group parameters and the
`planner_configs` value of every group, the stored value of every listed configuration name)
is answered as before.  The item is (i) the `planner_configs` value of a group that is not an
array, provided that, if its key is also a configuration key `planner_configs/c`, the value
is not a struct; (ii) an element of a `planner_configs` array that is not a string; (iii) a
string element of such an array naming a configuration whose stored value is missing or is
not a struct. -/
theorem loadPlannerConfigurations_skips_malformed {F : Type} (env : Env F)
    (nh nh2 : NodeHandle F) (rm : RobotModel) (g : String)
    (hsame : SameOtherReads rm nh nh2 (g ++ "/planner_configs")) :
    (∀ v, nh.getParamXml (g ++ "/planner_configs") = some v → v.isArray = false →
      (∀ c, "planner_configs/" ++ c = g ++ "/planner_configs" → v.isStruct = false) →
      nh2.getParamXml (g ++ "/planner_configs") = none →
      loadPlannerConfigurations env nh2 rm = loadPlannerConfigurations env nh rm) ∧
    (∀ elems j (hj : j < elems.length),
      nh.getParamXml (g ++ "/planner_configs") = some (.array elems) →
      (elems.get ⟨j, hj⟩).isString = false →
      nh2.getParamXml (g ++ "/planner_configs") = some (.array (elems.eraseIdx j)) →
      loadPlannerConfigurations env nh2 rm = loadPlannerConfigurations env nh rm) ∧
    (∀ elems j (hj : j < elems.length) c,
      nh.getParamXml (g ++ "/planner_configs") = some (.array elems) →
      elems.get ⟨j, hj⟩ = .string c →
      (nh.getParamXml ("planner_configs/" ++ c) = none ∨
        ∃ v, nh.getParamXml ("planner_configs/" ++ c) = some v ∧ v.isStruct = false) →
      nh2.getParamXml (g ++ "/planner_configs") = some (.array (elems.eraseIdx j)) →
      loadPlannerConfigurations env nh2 rm = loadPlannerConfigurations env nh rm) := by
  refine ⟨?_, ?_, ?_⟩
  · intro v hv harr hrole hK2
    exact loadPlannerConfigurations_without_list env nh nh2 rm g v hv harr hK2 hrole hsame
  · intro elems j hj hK hx hK2
    exact loadPlannerConfigurations_without_element env nh nh2 rm g elems j hj hK hK2
      (configResolves_of_not_string nh _ hx) hsame
  · intro elems j hj c hK hx hcfg hK2
    apply loadPlannerConfigurations_without_element env nh nh2 rm g elems j hj hK hK2 _ hsame
    rw [hx]
    rcases hcfg with h | ⟨v, h, hv⟩
    · exact configResolves_of_missing nh c h
    · exact configResolves_of_not_struct nh c v h hv

theorem loadPlannerConfigurations_skips_malformed_witness :
    loadPlannerConfigurations exampleEnv exampleStoreWithoutGripperList exampleModel =
      loadPlannerConfigurations exampleEnv exampleStore exampleModel ∧
    loadPlannerConfigurations exampleEnv exampleStoreWithoutThree exampleModel =
      loadPlannerConfigurations exampleEnv exampleStore exampleModel ∧
    loadPlannerConfigurations exampleEnv exampleStoreWithoutPRM exampleModel =
      loadPlannerConfigurations exampleEnv exampleStore exampleModel :=
  ⟨(loadPlannerConfigurations_skips_malformed exampleEnv exampleStore
      exampleStoreWithoutGripperList exampleModel "gripper"
      (sameOtherReads_of_agree _ _ _ _ (by
        intro k hk
        have hk2 : k ≠ "gripper/planner_configs" := hk
        refine ⟨rfl, rfl, rfl, rfl, ?_⟩
        simp only [exampleStoreWithoutGripperList, hk2, if_false]))).1
      (.string "RRT") (by rfl) (by rfl) (fun _ _ => rfl) (by rfl),
   (loadPlannerConfigurations_skips_malformed exampleEnv exampleStore
      exampleStoreWithoutThree exampleModel "arm"
      (sameOtherReads_of_agree _ _ _ _ (by
        intro k hk
        have hk2 : k ≠ "arm/planner_configs" := hk
        refine ⟨rfl, rfl, rfl, rfl, ?_⟩
        simp only [exampleStoreWithoutThree, hk2, if_false]))).2.1
      [.string "RRT", .int 3, .string "PRM"] 1 (by decide) (by rfl) (by rfl) (by rfl),
   (loadPlannerConfigurations_skips_malformed exampleEnv exampleStore
      exampleStoreWithoutPRM exampleModel "arm"
      (sameOtherReads_of_agree _ _ _ _ (by
        intro k hk
        have hk2 : k ≠ "arm/planner_configs" := hk
        refine ⟨rfl, rfl, rfl, rfl, ?_⟩
        simp only [exampleStoreWithoutPRM, hk2, if_false]))).2.2
      [.string "RRT", .int 3, .string "PRM"] 2 (by decide) "PRM" (by rfl) (by rfl)
      (Or.inl (by rfl)) (by rfl)⟩

/-- C7, as stated, fails: the known group parameter `projection_evaluator` of the group
`planner_configs` exists and none of its typed reads succeeds, the second store is the first
one with that parameter deleted (it is absent and every other read of the loading loop is
answered alike), and the loaded maps differ, because the same key is read as the
configuration `projection_evaluator` of the group `arm`. -/
theorem failed_read_counterexample :
    "planner_configs" ∈ sharedKeyModel.getJointModelGroupNames ∧
    "projection_evaluator" ∈ KNOWN_GROUP_PARAMS ∧
    unreadableStore.hasParam ("planner_configs" ++ "/" ++ "projection_evaluator") = true ∧
    unreadableStore.getParamString ("planner_configs" ++ "/" ++ "projection_evaluator")
      = none ∧
    unreadableStore.getParamDouble ("planner_configs" ++ "/" ++ "projection_evaluator")
      = none ∧
    unreadableStore.getParamInt ("planner_configs" ++ "/" ++ "projection_evaluator")
      = none ∧
    unreadableStore.getParamBool ("planner_configs" ++ "/" ++ "projection_evaluator")
      = none ∧
    unreadableStoreWithout.hasParam ("planner_configs" ++ "/" ++ "projection_evaluator")
      = false ∧
    unreadableStoreWithout.getParamXml ("planner_configs" ++ "/" ++ "projection_evaluator")
      = none ∧
    SameOtherReads sharedKeyModel unreadableStore unreadableStoreWithout
      ("planner_configs" ++ "/" ++ "projection_evaluator") ∧
    loadPlannerConfigurations exampleEnv unreadableStore sharedKeyModel =
      [("arm", ⟨"arm", "arm", []⟩),
       ("arm[projection_evaluator]",
         ⟨"arm", "arm[projection_evaluator]", [("range", "1")]⟩),
       ("planner_configs", ⟨"planner_configs", "planner_configs", []⟩)] ∧
    loadPlannerConfigurations exampleEnv unreadableStoreWithout sharedKeyModel =
      [("arm", ⟨"arm", "arm", []⟩),
       ("planner_configs", ⟨"planner_configs", "planner_configs", []⟩)] ∧
    loadPlannerConfigurations exampleEnv unreadableStoreWithout sharedKeyModel ≠
      loadPlannerConfigurations exampleEnv unreadableStore sharedKeyModel :=
  ⟨by decide, by decide, by decide, by decide, by decide, by decide, by decide, by decide,
    by rfl,
    sameOtherReads_of_agree _ _ _ _ (by
      intro k hk
      have hk2 : k ≠ "planner_configs/projection_evaluator" := hk
      refine ⟨?_, rfl, rfl, rfl, ?_⟩
      · simp [unreadableStore, unreadableStoreWithout, hk2]
      · simp only [unreadableStore, unreadableStoreWithout, hk2, if_false]),
    by decide, by decide, by decide⟩

/-- C7, amended: (a) if a known group parameter `g/p` exists in the store and none of the
typed reads (string, double, int, bool) succeeds, then the group-level parameter map of `g`
has no key `p`, and, provided the value stored under `g/p` is not a struct whose key is also
a configuration key `planner_configs/c`, the map is the same on every store in which `g/p` is
absent and every other read of the loading loop is answered as before; (b) if a member of
the struct of a configuration has a type other than string, double, int or bool, then the
pass for that member leaves the parameter map as it is, and the map is the same on every
store in which that member is removed from the struct and every other read of the loading
loop is answered as before. -/
theorem loadPlannerConfigurations_skips_failed_reads {F : Type} (env : Env F)
    (nh nh2 : NodeHandle F) (rm : RobotModel) :
    (∀ g p, p ∈ KNOWN_GROUP_PARAMS → nh.hasParam (g ++ "/" ++ p) = true →
      nh.getParamString (g ++ "/" ++ p) = none →
      nh.getParamDouble (g ++ "/" ++ p) = none →
      nh.getParamInt (g ++ "/" ++ p) = none →
      nh.getParamBool (g ++ "/" ++ p) = none →
      (specificGroupParams env nh g).find p = none ∧
      ((∀ c, "planner_configs/" ++ c = g ++ "/" ++ p →
          ∀ members, nh.getParamXml (g ++ "/" ++ p) ≠ some (.struct members)) →
        nh2.hasParam (g ++ "/" ++ p) = false →
        nh2.getParamXml (g ++ "/" ++ p) = none →
        SameOtherReads rm nh nh2 (g ++ "/" ++ p) →
        loadPlannerConfigurations env nh2 rm = loadPlannerConfigurations env nh rm)) ∧
    (∀ c members i (hi : i < members.length),
      nh.getParamXml ("planner_configs/" ++ c) = some (.struct members) →
      (members.get ⟨i, hi⟩).2.isConfigScalar = false →
      (∀ config, readConfigMember env config (members.get ⟨i, hi⟩) = config) ∧
      (nh2.getParamXml ("planner_configs/" ++ c) = some (.struct (members.eraseIdx i)) →
        (nh2.hasParam ("planner_configs/" ++ c) = nh.hasParam ("planner_configs/" ++ c) ∧
          nh2.getParamString ("planner_configs/" ++ c) =
            nh.getParamString ("planner_configs/" ++ c) ∧
          nh2.getParamDouble ("planner_configs/" ++ c) =
            nh.getParamDouble ("planner_configs/" ++ c) ∧
          nh2.getParamBool ("planner_configs/" ++ c) =
            nh.getParamBool ("planner_configs/" ++ c)) →
        SameOtherReads rm nh nh2 ("planner_configs/" ++ c) →
        loadPlannerConfigurations env nh2 rm = loadPlannerConfigurations env nh rm)) := by
  refine ⟨?_, ?_⟩
  · intro g p hp hhas hs hd _ hb
    have hval : groupParamValue env nh (g ++ "/" ++ p) = none := by
      simp [groupParamValue, hhas, hs, hd, hb]
    refine ⟨?_, ?_⟩
    · rw [find_specificGroupParams env nh g p hp, hval]
    · intro hrole hhas2 hK2 hsame
      exact loadPlannerConfigurations_without_param env nh nh2 rm g p hp hval hhas2 hK2
        hrole hsame
  · intro c members i hi hK hx
    have hform := stringForm_none_of_not_scalar env _ hx
    refine ⟨?_, ?_⟩
    · intro config
      rw [readConfigMember_eq, hform]
    · intro hK2 htyped hsame
      exact loadPlannerConfigurations_without_member env nh nh2 rm c members i hi hK hK2
        hform htyped hsame

theorem loadPlannerConfigurations_skips_failed_reads_witness :
    ((specificGroupParams exampleEnv exampleStore "gripper").find
        "longest_valid_segment_fraction" = none ∧
      loadPlannerConfigurations exampleEnv exampleStoreWithoutFraction exampleModel =
        loadPlannerConfigurations exampleEnv exampleStore exampleModel) ∧
    loadPlannerConfigurations exampleEnv exampleStoreWithoutShape exampleModel =
      loadPlannerConfigurations exampleEnv exampleStore exampleModel :=
  ⟨⟨((loadPlannerConfigurations_skips_failed_reads exampleEnv exampleStore
        exampleStoreWithoutFraction exampleModel).1
        "gripper" "longest_valid_segment_fraction" (by decide) (by decide) (by decide)
        (by decide) (by decide) (by decide)).1,
    ((loadPlannerConfigurations_skips_failed_reads exampleEnv exampleStore
        exampleStoreWithoutFraction exampleModel).1
        "gripper" "longest_valid_segment_fraction" (by decide) (by decide) (by decide)
        (by decide) (by decide) (by decide)).2
      (by
        intro c hc
        have h2 := congrArg (fun s => s.data.head?) hc
        simp [String.data_append] at h2)
      (by decide) (by rfl)
      (sameOtherReads_of_agree _ _ _ _ (by
        intro k hk
        have hk2 : k ≠ "gripper/longest_valid_segment_fraction" := hk
        refine ⟨?_, rfl, rfl, rfl, ?_⟩
        · simp [exampleStoreWithoutFraction, exampleStore, hk2]
        · simp only [exampleStoreWithoutFraction, hk2, if_false]))⟩,
   ((loadPlannerConfigurations_skips_failed_reads exampleEnv exampleStore
      exampleStoreWithoutShape exampleModel).2
      "RRT" [("projection_evaluator", .string "link(tip)"), ("range", .int 7),
        ("shape", .array []), ("verbose", .boolean true)] 2 (by decide) (by rfl)
      (by rfl)).2 (by rfl) ⟨rfl, rfl, rfl, rfl⟩
      (sameOtherReads_of_agree _ _ _ _ (by
        intro k hk
        have hk2 : k ≠ "planner_configs/RRT" := hk
        refine ⟨rfl, rfl, rfl, rfl, ?_⟩
        simp only [exampleStoreWithoutShape, hk2, if_false]))⟩

/-- C10: in every state the adapter reaches from its constructor by calls of its member
functions, the policy flag `simplify_solutions_` is true and no call changes it; for every
planning scene, request and incoming error code, `getPlanningContext` returns the context
the context manager produces, with its simplify-solutions flag set to that policy flag and
nothing else changed, together with the error code the context manager leaves; when the
context manager produces null, null is returned with that error code and no context is
configured. -/
theorem getPlanningContext_forwards {F C O S E X : Type} (w : Collaborators F C O S E X)
    (calls : List (Call C O S E X)) (self : OMPLPlannerManager F C O S E X)
    (cm : PlanningContextManager C O S E X)
    (h : OMPLPlannerManager.afterCalls w calls = some self)
    (hcm : self.context_manager_ = some cm)
    (planning_scene : S) (req : MotionPlanRequest C O) (error_code : E) :
    self.simplify_solutions_ = true ∧
    (∀ call self2, self.after w call = some self2 → self2.simplify_solutions_ = true) ∧
    (∀ ctx ec, cm.getPlanningContext planning_scene req error_code = (some ctx, ec) →
      self.getPlanningContext planning_scene req error_code =
        some (some (ctx.simplifySolutions true), ec) ∧
      (ctx.simplifySolutions true).simplify_solutions_ = true ∧
      (ctx.simplifySolutions true).other_state = ctx.other_state) ∧
    (∀ ec, cm.getPlanningContext planning_scene req error_code = (none, ec) →
      self.getPlanningContext planning_scene req error_code = some (none, ec)) := by
  have hflag := afterCalls_flag w calls self h
  refine ⟨hflag, ?_, ?_, ?_⟩
  · intro call self2 h2
    rw [after_flag w self self2 call h2]
    exact hflag
  · intro ctx ec hctx
    refine ⟨?_, rfl, rfl⟩
    unfold OMPLPlannerManager.getPlanningContext
    simp only [hcm, hctx, OMPLPlannerManager.configureContext, hflag]
  · intro ec hctx
    unfold OMPLPlannerManager.getPlanningContext
    simp only [hcm, hctx]

theorem getPlanningContext_forwards_witness :
    exampleManager.getPlanningContext () ⟨⟨[]⟩, "arm"⟩ 0 =
      some (some { simplify_solutions_ := true, other_state := "arm" }, 1) ∧
    exampleManager.getPlanningContext () ⟨⟨[]⟩, "leg"⟩ 0 = some (none, 99) :=
  ⟨((getPlanningContext_forwards exampleWorld [.initialise exampleModel ""] exampleManager
      exampleContextManager (by rfl) (by rfl) () ⟨⟨[]⟩, "arm"⟩ 0).2.2.1
      { simplify_solutions_ := false, other_state := "arm" } 1 (by rfl)).1,
   (getPlanningContext_forwards exampleWorld [.initialise exampleModel ""] exampleManager
      exampleContextManager (by rfl) (by rfl) () ⟨⟨[]⟩, "leg"⟩ 0).2.2.2 99 (by rfl)⟩

end moveit_ompl
